import Mathlib

/-!
The bish shell: lexer, parser, builtin dispatcher and pipeline executor.

A shallow embedding of `src/main.c`.  C strings are modelled as lists of
characters (the characters before the terminating NUL), linked lists as Lean
lists in link order, and out-of-bounds memory accesses as explicit failures
(`none` for the lexer, `Except.error` for the parser).
-/

namespace Bish

/-- A C string: the characters that precede the terminating NUL. -/
abbrev CStr := List Char

/-! ## Tokens -/

/-- The `enum token_type` of the source. -/
inductive token_type
  | TOK_WORD
  | TOK_PIPE
  | TOK_REDIR_OUT
  | TOK_REDIR_APPEND
  | TOK_REDIR_IN
  deriving DecidableEq, Repr

open token_type

/-- The `struct token` of the source without its `next` link: a token list is
a Lean list in link order. -/
structure token where
  value : CStr
  type : token_type
  deriving DecidableEq, Repr

/-- Source function `add_token(head, data, len, type)`: allocate a token holding
`strndup(data, len)` and link it after the last token of `head`. -/
def add_token (head : List token) (data : CStr) (len : Nat) (type : token_type) :
    List token :=
  head ++ [⟨data.take len, type⟩]

/-! ## Lexer -/

/-- Size of the lexer's word buffer, `char buf[1024]`. -/
def BUF_SIZE : Nat := 1024

/-- The statement `if (j) head = add_token(head, buf, j, TOK_WORD), j = 0;`.
The buffer is represented by its first `j` characters, so `j = buf.length`;
the caller resets the buffer. -/
def flush_word (head : List token) (buf : CStr) : List token :=
  if buf.length ≠ 0 then add_token head buf buf.length TOK_WORD else head

/-- The `while (s[i])` loop of `lex`, on the unread part of the input, the
tokens so far and the live part `buf[0..j)` of the word buffer.  A write
`buf[j++] = s[i]` with `j` outside `[0, 1024)` is a memory fault: `none`. -/
def lexLoop : CStr → List token → CStr → Option (List token)
  | [], head, buf => some (flush_word head buf)
  | c :: s, head, buf =>
    if c = ' ' ∨ c = '\t' then
      lexLoop s (flush_word head buf) []
    else if c = '|' then
      lexLoop s (add_token (flush_word head buf) ['|'] 1 TOK_PIPE) []
    else if c = '<' then
      lexLoop s (add_token (flush_word head buf) ['<'] 1 TOK_REDIR_IN) []
    else if c = '>' then
      match s with
      | d :: s' =>
        if d = '>' then
          lexLoop s' (add_token (flush_word head buf) ['>', '>'] 2 TOK_REDIR_APPEND) []
        else
          lexLoop (d :: s') (add_token (flush_word head buf) ['>'] 1 TOK_REDIR_OUT) []
      | [] => lexLoop [] (add_token (flush_word head buf) ['>'] 1 TOK_REDIR_OUT) []
    else if buf.length < BUF_SIZE then
      lexLoop s head (buf ++ [c])
    else
      none

/-- Source function `lex(s)`: start with no token and an empty buffer. -/
def lex (s : CStr) : Option (List token) :=
  lexLoop s [] []

/-! ## Parser -/

/-- The `struct command` of the source without its `next` link: a chain is a
Lean list in link order.  `argv` holds the entries of the argument array that
precede its first null entry; `in_file` and `out_file` are null (`none`) or a
path. -/
structure command where
  argv : List CStr
  in_file : Option CStr
  out_file : Option CStr
  append : Bool
  deriving DecidableEq, Repr

/-- Number of slots of a stage's argument array, `calloc(64, sizeof(char *))`. -/
def ARGV_SLOTS : Nat := 64

/-- Source function `new_command()`: every field zeroed, the argument array all null. -/
def new_command : command :=
  { argv := [], in_file := none, out_file := none, append := false }

/-- The memory faults `parse` can run into. -/
inductive parse_fault
  /-- Read of `t->value` through a null `t`, after `t = t->next`. -/
  | null_token
  /-- Write of `cur->argv[argc]` with `argc` outside `[0, 64)`. -/
  | argv_bounds
  deriving DecidableEq, Repr

/-- The `while (t)` loop of `parse` followed by the final
`cur->argv[argc] = NULL; return head;`, on the unread tokens, the finished
stages (from `head` up to, not including, `cur`) and the current stage.
`argc` is `cur.argv.length`. -/
def parseLoop : List token → List command → command → Except parse_fault (List command)
  | [], done, cur =>
    if cur.argv.length < ARGV_SLOTS then .ok (done ++ [cur]) else .error .argv_bounds
  | t :: ts, done, cur =>
    if t.type = TOK_WORD then
      if cur.argv.length < ARGV_SLOTS then
        parseLoop ts done { cur with argv := cur.argv ++ [t.value] }
      else
        .error .argv_bounds
    else if t.type = TOK_PIPE then
      if cur.argv.length < ARGV_SLOTS then
        parseLoop ts (done ++ [cur]) new_command
      else
        .error .argv_bounds
    else if t.type = TOK_REDIR_IN then
      match ts with
      | [] => .error .null_token
      | p :: ts' => parseLoop ts' done { cur with in_file := some p.value }
    else if t.type = TOK_REDIR_OUT ∨ t.type = TOK_REDIR_APPEND then
      match ts with
      | [] => .error .null_token
      | p :: ts' =>
        parseLoop ts' done
          { cur with out_file := some p.value, append := decide (p.type = TOK_REDIR_APPEND) }
    else
      parseLoop ts done cur

/-- Source function `parse(t)`: the chain starts as one fresh stage, which is also current. -/
def parse (t : List token) : Except parse_fault (List command) :=
  parseLoop t [] new_command

/-- What `main` does with a line before executing it: `parse(lex(line))`. -/
def parse_line (line : CStr) : Option (Except parse_fault (List command)) :=
  (lex line).map parse

/-! ## Interpreter state -/

/-- An open file description a descriptor can refer to. -/
inductive Desc
  /-- What the interpreter had open on descriptor `fd` when it started. -/
  | inherited (fd : Nat)
  /-- Read end of the `k`-th pipe created (counting from 0). -/
  | pipe_read (k : Nat)
  /-- Write end of the `k`-th pipe created. -/
  | pipe_write (k : Nat)
  /-- Result of `open(path, O_RDONLY)`. -/
  | file_in (path : CStr)
  /-- Result of `open(path, O_WRONLY | O_CREAT | (append ? O_APPEND : O_TRUNC), 0644)`. -/
  | file_out (path : CStr) (append : Bool)
  deriving DecidableEq, Repr

/-- A descriptor table: the open descriptors of a process with what each
refers to, at most one entry per descriptor. -/
abbrev FdTable := List (Nat × Desc)

/-- Search for the lowest descriptor from `n` on that is not open, looking at
`fuel + 1` candidates. -/
def fd_scan (t : FdTable) : Nat → Nat → Nat
  | 0, n => n
  | fuel + 1, n => if (t.lookup n).isSome then fd_scan t fuel (n + 1) else n

/-- The lowest descriptor that is not open, which is what `pipe` and `open`
hand out.  A table of `k` entries has a free descriptor among `0..k`. -/
def fd_lowest_free (t : FdTable) : Nat :=
  fd_scan t t.length 0

/-- Make descriptor `fd` refer to `d`. -/
def fd_set (t : FdTable) (fd : Nat) (d : Desc) : FdTable :=
  (fd, d) :: t.filter (fun e => decide (e.1 ≠ fd))

/-- System call `close(fd)`: drops the descriptor; closing one that is not open changes
nothing (the call fails with `EBADF`). -/
def fd_close (t : FdTable) (fd : Nat) : FdTable :=
  t.filter (fun e => decide (e.1 ≠ fd))

/-- System call `dup2(oldfd, newfd)` with `oldfd` a descriptor number, or `none` for the
`-1` a failed `open` returned: when `oldfd` is open and differs from `newfd`,
`newfd` is made to refer to the same description; otherwise nothing changes. -/
def dup2 (t : FdTable) (oldfd : Option Nat) (newfd : Nat) : FdTable :=
  match oldfd with
  | none => t
  | some o =>
    match t.lookup o with
    | none => t
    | some d => if o = newfd then t else fd_set t newfd d

/-- System call `open(...)` in a process with table `t`: when the file system grants the
request the lowest free descriptor is returned, referring to `d`; otherwise
the call returns `-1` (`none`). -/
def sys_open (t : FdTable) (granted : Bool) (d : Desc) : Option Nat × FdTable :=
  if granted then (some (fd_lowest_free t), fd_set t (fd_lowest_free t) d) else (none, t)

/-- A child process at the moment it calls `execvp(argv[0], argv)`. -/
structure Proc where
  argv : List CStr
  fds : FdTable
  deriving DecidableEq, Repr

/-- System calls made by the interpreter process itself, as logged in order. -/
inductive Call
  | pipe (rd wr : Nat)
  | fork
  | wait
  | close (fd : Nat)
  | chdir (path : Option CStr)
  | exit (status : Nat)
  deriving DecidableEq, Repr

/-- State of the interpreter process. -/
structure Shell where
  /-- Current working directory. -/
  cwd : CStr
  /-- Everything printed on the standard output stream by the interpreter. -/
  out : List Char
  /-- Everything printed on the standard error stream by the interpreter
  process itself (children write theirs after `fork`). -/
  err : List Char
  /-- Open descriptors. -/
  fds : FdTable
  /-- Number of pipes created so far. -/
  pipes : Nat
  /-- Child processes created so far, oldest first. -/
  procs : List Proc
  /-- System calls made so far, oldest first. -/
  calls : List Call
  /-- Exit status once `exit` has been called. -/
  exited : Option Nat
  deriving DecidableEq, Repr

/-- What the interpreter sees of its environment and of the file system. -/
structure Env where
  /-- Value of `getenv("HOME")`, `none` when unset. -/
  home : Option CStr
  /-- The value `chdir_to cwd path` is the working directory after a successful
  `chdir(path)` made in `cwd`, `none` when the call fails. -/
  chdir_to : CStr → CStr → Option CStr
  /-- Whether `open(path, O_RDONLY)` succeeds. -/
  can_read : CStr → Bool
  /-- Whether `open(path, O_WRONLY | O_CREAT | ..., 0644)` succeeds. -/
  can_write : CStr → Bool
  /-- Content found in `pwd`'s local buffer when `getcwd` did not fill it. -/
  stale : CStr

/-! ## Builtins -/

/-- How a call of `builtin` ends: `return 1`, `return 0`, or `exit(status)`. -/
inductive dispatch
  | handled
  | not_handled
  | exited (status : Nat)
  deriving DecidableEq, Repr

/-- Call of `printf` on the interpreter's standard output. -/
def print (sh : Shell) (text : List Char) : Shell :=
  { sh with out := sh.out ++ text }

/-- System call `chdir(path)`, `path` being `none` for a null pointer: on success the
working directory changes; on failure nothing does and nothing is printed. -/
def sys_chdir (env : Env) (sh : Shell) (path : Option CStr) : Shell :=
  let sh' := { sh with calls := sh.calls ++ [Call.chdir path] }
  match path with
  | none => sh'
  | some p =>
    match env.chdir_to sh.cwd p with
    | none => sh'
    | some d => { sh' with cwd := d }

/-- Call `getcwd(buf, 1024)` followed by reading `buf` as a string: the working
directory when it fits the buffer with its terminator, else whatever the
buffer held. -/
def getcwd (env : Env) (sh : Shell) : CStr :=
  if sh.cwd.length < 1024 then sh.cwd else env.stale

/-- The loop `for (i = 1; argv[i]; i++) printf("%s%s", argv[i], argv[i+1] ? " " : "\n")`
of `echo`, on the entries `argv[i..]` that precede the null entry. -/
def echo_text : List CStr → List Char
  | [] => []
  | [a] => a ++ ['\n']
  | a :: b :: rest => a ++ [' '] ++ echo_text (b :: rest)

/-- Source function `builtin(c)`: the outcome and the interpreter state after the call.
`printf("%s", NULL)` prints `(null)`, as the C library in use does. -/
def builtin (env : Env) (c : command) (sh : Shell) : dispatch × Shell :=
  match c.argv with
  | [] => (dispatch.handled, sh)
  | a0 :: args =>
    if a0 = "exit".toList then
      (dispatch.exited 0, { sh with calls := sh.calls ++ [Call.exit 0], exited := some 0 })
    else if a0 = "cd".toList then
      (dispatch.handled,
        sys_chdir env sh (match args.head? with | some p => some p | none => env.home))
    else if a0 = "pwd".toList then
      (dispatch.handled, print sh (getcwd env sh ++ ['\n']))
    else if a0 = "echo".toList then
      (dispatch.handled, print sh (echo_text args))
    else if a0 = "type".toList then
      (dispatch.handled,
        print sh (args.head?.getD "(null)".toList ++ " is a shell builtin\n".toList))
    else
      (dispatch.not_handled, sh)

/-! ## Executor -/

/-- System call `pipe(pipefd)`: the two lowest free descriptors become the read and the
write end of a new pipe. -/
def sys_pipe (sh : Shell) : Nat × Nat × Shell :=
  let rd := fd_lowest_free sh.fds
  let t := fd_set sh.fds rd (Desc.pipe_read sh.pipes)
  let wr := fd_lowest_free t
  (rd, wr,
    { sh with
      fds := fd_set t wr (Desc.pipe_write sh.pipes)
      pipes := sh.pipes + 1
      calls := sh.calls ++ [Call.pipe rd wr] })

/-- The branch `if (pid == 0) { ... }` of `execute` up to `execvp`: the
child's descriptor table, starting from a copy of the interpreter's. -/
def child_fds (env : Env) (c : command) (has_next : Bool) (fd_in rd wr : Nat)
    (fds : FdTable) : FdTable :=
  let t1 := if fd_in ≠ 0 then dup2 fds (some fd_in) 0 else fds
  let t2 := if has_next then dup2 t1 (some wr) 1 else t1
  let t3 :=
    match c.in_file with
    | none => t2
    | some p =>
      let (f, t) := sys_open t2 (env.can_read p) (Desc.file_in p)
      dup2 t f 0
  let t4 :=
    match c.out_file with
    | none => t3
    | some p =>
      let (f, t) := sys_open t3 (env.can_write p) (Desc.file_out p c.append)
      dup2 t f 1
  fd_close t4 rd

/-- System call `fork()` seen from the interpreter: a child is created, which sets up its
descriptors and calls `execvp`. -/
def sys_fork (env : Env) (c : command) (has_next : Bool) (fd_in rd wr : Nat)
    (sh : Shell) : Shell :=
  { sh with
    procs := sh.procs ++ [{ argv := c.argv, fds := child_fds env c has_next fd_in rd wr sh.fds }]
    calls := sh.calls ++ [Call.fork] }

/-- System call `wait(NULL)`. -/
def sys_wait (sh : Shell) : Shell :=
  { sh with calls := sh.calls ++ [Call.wait] }

/-- System call `close(fd)` in the interpreter. -/
def sys_close (sh : Shell) (fd : Nat) : Shell :=
  { sh with fds := fd_close sh.fds fd, calls := sh.calls ++ [Call.close fd] }

/-- The `while (c)` loop of `execute`, with `fd_in` and the interpreter
state.  `pipe` and `fork` are taken to succeed and children to terminate; the
loop ends early when a stage is `exit`. -/
def execLoop (env : Env) : List command → Nat → Shell → Shell
  | [], _, sh => sh
  | c :: cs, fd_in, sh =>
    match sys_pipe sh with
    | (rd, wr, sh1) =>
      match builtin env c sh1 with
      | (dispatch.exited _, sh2) => sh2
      | (dispatch.handled, sh2) => execLoop env cs rd (sys_close (sys_wait sh2) wr)
      | (dispatch.not_handled, sh2) =>
        execLoop env cs rd
          (sys_close (sys_wait (sys_fork env c (!cs.isEmpty) fd_in rd wr sh2)) wr)

/-- Source function `execute(c)`: `fd_in` starts as 0. -/
def execute (env : Env) (chain : List command) (sh : Shell) : Shell :=
  execLoop env chain 0 sh

/-- An interpreter that has just started in `/`: descriptors 0, 1 and 2 open,
nothing printed, no call made. -/
def Shell.start : Shell :=
  { cwd := ['/'], out := [], err := [], fds := [(0, Desc.inherited 0), (1, Desc.inherited 1),
      (2, Desc.inherited 2)], pipes := 0, procs := [], calls := [], exited := none }

/-- An environment with `HOME=/root` in which `/`, `/root` and `/tmp` are the
directories, `/etc/passwd` can be read and files under `/tmp/` written. -/
def Env.sample : Env :=
  { home := some "/root".toList
    chdir_to := fun _ p =>
      if p = "/".toList ∨ p = "/root".toList ∨ p = "/tmp".toList then some p else none
    can_read := fun p => decide (p = "/etc/passwd".toList)
    can_write := fun p => "/tmp/".toList.isPrefixOf p
    stale := [] }

/-- A character that is neither a separator nor part of an operator: the
final `else` branch of the lexer's loop. -/
def plain (c : Char) : Prop :=
  c ≠ ' ' ∧ c ≠ '\t' ∧ c ≠ '|' ∧ c ≠ '<' ∧ c ≠ '>'

instance : DecidablePred plain := fun c => by unfold plain; infer_instance

/-- Number of `>` characters the redirection tokens of a token list stand
for: two for each `TOK_REDIR_APPEND`, one for each `TOK_REDIR_OUT`. -/
def gt_weight (toks : List token) : Nat :=
  2 * toks.countP (fun t => decide (t.type = TOK_REDIR_APPEND))
    + toks.countP (fun t => decide (t.type = TOK_REDIR_OUT))

/-- The maximal runs of plain characters of an input: the pieces between
separator and operator characters. -/
def word_runs (s : CStr) : List CStr :=
  s.splitOnP (fun c => !decide (plain c))

/-- The groups of tokens between consecutive `TOK_PIPE` tokens. -/
def pipe_groups (ts : List token) : List (List token) :=
  ts.splitOnP (fun t => decide (t.type = TOK_PIPE))


/-- A token whose text fits its type: a word is a non-empty run of plain
characters, an operator token carries the operator's characters. -/
def token_ok (t : token) : Prop :=
  match t.type with
  | TOK_WORD => t.value ≠ [] ∧ ∀ c ∈ t.value, plain c
  | TOK_PIPE => t.value = ['|']
  | TOK_REDIR_IN => t.value = ['<']
  | TOK_REDIR_OUT => t.value = ['>']
  | TOK_REDIR_APPEND => t.value = ['>', '>']

/-- Whether the walk of `parse` over a token sequence ends on a redirection
operator with nothing after it: a word or pipe is passed over alone, a
redirection operator together with the token that follows it. -/
def dangling : List token → Bool
  | [] => false
  | t :: ts =>
    if t.type = TOK_WORD ∨ t.type = TOK_PIPE then dangling ts
    else
      match ts with
      | [] => true
      | _ :: ts' => dangling ts'

/-- The argument lists of the stages of a token sequence, by the rules of the
parser without its capacity: a word is an argument of the current stage, a
pipe opens a stage, a redirection operator and the token after it add
nothing. -/
def stage_args : List token → List (List CStr)
  | [] => [[]]
  | t :: ts =>
    if t.type = TOK_WORD then (stage_args ts).modifyHead (List.cons t.value)
    else if t.type = TOK_PIPE then [] :: stage_args ts
    else
      match ts with
      | [] => [[]]
      | _ :: ts' => stage_args ts'

/-- The system calls one run of `builtin` on a stage adds to the log, read off
a run on an empty log: `chdir` for `cd`, `exit` for `exit`, none otherwise. -/
def builtin_calls (env : Env) (c : command) : List Call :=
  (builtin env c Shell.start).2.calls

/-! ## Lexer: step lemmas -/

theorem flush_word_nil (head : List token) : flush_word head [] = head := by
  simp [flush_word]

theorem lexLoop_nil (head : List token) (buf : CStr) :
    lexLoop [] head buf = some (flush_word head buf) := by
  rw [lexLoop.eq_def]

theorem lexLoop_blank (c : Char) (hc : c = ' ' ∨ c = '\t') (s : CStr) (head : List token)
    (buf : CStr) : lexLoop (c :: s) head buf = lexLoop s (flush_word head buf) [] := by
  rw [lexLoop.eq_def]; simp [hc]

theorem lexLoop_pipe (s : CStr) (head : List token) (buf : CStr) :
    lexLoop ('|' :: s) head buf
      = lexLoop s (add_token (flush_word head buf) ['|'] 1 TOK_PIPE) [] := by
  rw [lexLoop.eq_def]; simp

theorem lexLoop_lt (s : CStr) (head : List token) (buf : CStr) :
    lexLoop ('<' :: s) head buf
      = lexLoop s (add_token (flush_word head buf) ['<'] 1 TOK_REDIR_IN) [] := by
  rw [lexLoop.eq_def]; simp

theorem lexLoop_gt_gt (s : CStr) (head : List token) (buf : CStr) :
    lexLoop ('>' :: '>' :: s) head buf
      = lexLoop s (add_token (flush_word head buf) ['>', '>'] 2 TOK_REDIR_APPEND) [] := by
  rw [lexLoop.eq_def]; simp

theorem lexLoop_gt_other (d : Char) (hd : d ≠ '>') (s : CStr) (head : List token)
    (buf : CStr) :
    lexLoop ('>' :: d :: s) head buf
      = lexLoop (d :: s) (add_token (flush_word head buf) ['>'] 1 TOK_REDIR_OUT) [] := by
  rw [lexLoop.eq_def]; simp [hd]

theorem lexLoop_gt_end (head : List token) (buf : CStr) :
    lexLoop ['>'] head buf
      = some (add_token (flush_word head buf) ['>'] 1 TOK_REDIR_OUT) := by
  rw [lexLoop.eq_def]; simp [lexLoop_nil, flush_word_nil]

theorem lexLoop_gt_plain (s : CStr) (hs : ∀ c ∈ s, plain c) (head : List token) (buf : CStr) :
    lexLoop ('>' :: s) head buf
      = lexLoop s (add_token (flush_word head buf) ['>'] 1 TOK_REDIR_OUT) [] := by
  cases s with
  | nil => rw [lexLoop_gt_end, lexLoop_nil, flush_word_nil]
  | cons d s => exact lexLoop_gt_other d (hs d (List.mem_cons_self d s)).2.2.2.2 s head buf

theorem lexLoop_plain_cons (c : Char) (hc : plain c) (s : CStr) (head : List token)
    (buf : CStr) :
    lexLoop (c :: s) head buf =
      if buf.length < BUF_SIZE then lexLoop s head (buf ++ [c]) else none := by
  obtain ⟨h1, h2, h3, h4, h5⟩ := hc
  rw [lexLoop.eq_def]; simp [h1, h2, h3, h4, h5]

theorem lexLoop_plain (w : CStr) (hw : ∀ c ∈ w, plain c) (s : CStr) (head : List token)
    (buf : CStr) (hbuf : buf.length ≤ BUF_SIZE) :
    lexLoop (w ++ s) head buf =
      if buf.length + w.length ≤ BUF_SIZE then lexLoop s head (buf ++ w) else none := by
  induction w generalizing buf with
  | nil => simp [hbuf]
  | cons c w ih =>
    have hc : plain c := hw c (List.mem_cons_self c w)
    have hw' : ∀ d ∈ w, plain d := fun d hd => hw d (List.mem_cons_of_mem c hd)
    rw [List.cons_append, lexLoop_plain_cons c hc]
    by_cases hlt : buf.length < BUF_SIZE
    · rw [if_pos hlt, ih hw' (buf ++ [c]) (by simp; omega)]
      simp only [List.length_append, List.length_cons, List.length_nil, List.append_assoc,
        List.singleton_append]
      congr 1
      simp only [eq_iff_iff]
      omega
    · rw [if_neg hlt, if_neg]
      simp only [List.length_cons]
      omega

theorem gt_weight_flush_word (head : List token) (buf : CStr) :
    gt_weight (flush_word head buf) = gt_weight head := by
  unfold flush_word add_token gt_weight
  split <;> simp [List.countP_append]

theorem gt_weight_add_token (head : List token) (data : CStr) (len : Nat) (ty : token_type) :
    gt_weight (add_token head data len ty)
      = gt_weight head
        + (if ty = TOK_REDIR_APPEND then 2 else if ty = TOK_REDIR_OUT then 1 else 0) := by
  unfold add_token gt_weight
  cases ty <;> simp [List.countP_append] <;> omega

theorem gt_weight_lexLoop (s : CStr) (head : List token) (buf : CStr) (toks : List token)
    (h : lexLoop s head buf = some toks) :
    gt_weight toks = gt_weight head + s.count '>' := by
  induction s, head, buf using lexLoop.induct generalizing toks with
  | case1 head buf =>
    rw [lexLoop_nil] at h
    simp only [Option.some.injEq] at h
    subst h
    simp [gt_weight_flush_word]
  | case2 c s head buf hc ih =>
    rw [lexLoop_blank c hc] at h
    have hne : c ≠ '>' := by rcases hc with rfl | rfl <;> decide
    rw [ih toks h, gt_weight_flush_word, List.count_cons_of_ne hne.symm]
  | case3 s head buf _ ih =>
    rw [lexLoop_pipe] at h
    rw [ih toks h, gt_weight_add_token, gt_weight_flush_word,
      List.count_cons_of_ne (by decide)]
    simp
  | case4 s head buf _ _ ih =>
    rw [lexLoop_lt] at h
    rw [ih toks h, gt_weight_add_token, gt_weight_flush_word,
      List.count_cons_of_ne (by decide)]
    simp
  | case5 head buf s _ _ _ ih =>
    rw [lexLoop_gt_gt] at h
    rw [ih toks h, gt_weight_add_token, gt_weight_flush_word]
    simp only [List.count_cons_self, if_true]
    omega
  | case6 head buf d s hd _ _ _ ih =>
    rw [lexLoop_gt_other d hd] at h
    rw [ih toks h, gt_weight_add_token, gt_weight_flush_word]
    simp only [List.count_cons_self]
    simp
    omega
  | case7 head buf _ _ _ _ =>
    rw [lexLoop_gt_end] at h
    simp only [Option.some.injEq] at h
    subst h
    rw [gt_weight_add_token, gt_weight_flush_word]
    simp
  | case8 c s head buf h1 h2 h3 h4 hlt ih =>
    have hc : plain c := ⟨fun e => h1 (Or.inl e), fun e => h1 (Or.inr e), h2, h3, h4⟩
    rw [lexLoop_plain_cons c hc, if_pos hlt] at h
    rw [ih toks h, List.count_cons_of_ne (Ne.symm h4)]
  | case9 c s head buf h1 h2 h3 h4 hlt =>
    have hc : plain c := ⟨fun e => h1 (Or.inl e), fun e => h1 (Or.inr e), h2, h3, h4⟩
    rw [lexLoop_plain_cons c hc, if_neg hlt] at h
    exact absurd h (by simp)

/-! ## Claims about redirection tokens and operator spacing -/

/-- C1: on the line `cmd2 >> out.txt` the lexer yields the three tokens
`cmd2`, `>>`, `out.txt`, and `parse` returns one stage with arguments `[cmd2]`
and output path `out.txt` whose append flag is clear: the flag is computed
from the type of the path token, which `t` already points to, not from the
type of the operator token. -/
theorem parse_append_operator_flag_clear :
    lex "cmd2 >> out.txt".toList
        = some [⟨"cmd2".toList, TOK_WORD⟩, ⟨">>".toList, TOK_REDIR_APPEND⟩,
            ⟨"out.txt".toList, TOK_WORD⟩]
      ∧ parse [⟨"cmd2".toList, TOK_WORD⟩, ⟨">>".toList, TOK_REDIR_APPEND⟩,
            ⟨"out.txt".toList, TOK_WORD⟩]
        = .ok [{ argv := ["cmd2".toList], in_file := none,
                 out_file := some "out.txt".toList, append := false }] := by
  constructor <;> rfl

/-- C2: for words `u`, `v` free of separators and operator characters and an
operator `op` among `|`, `<`, `>`, `>>`, the lexer gives the same result on
`u op v` written without and with a space on each side of the operator; and
`a|b`, `a | b` both lex to `[Word a, Pipe, Word b]`. -/
theorem lex_operator_spacing (u v op : CStr) (hu : ∀ c ∈ u, plain c) (hv : ∀ c ∈ v, plain c)
    (hop : op ∈ [['|'], ['<'], ['>'], ['>', '>']]) :
    lex (u ++ op ++ v) = lex (u ++ [' '] ++ op ++ [' '] ++ v)
      ∧ lex "a|b".toList = some [⟨['a'], TOK_WORD⟩, ⟨['|'], TOK_PIPE⟩, ⟨['b'], TOK_WORD⟩]
      ∧ lex "a | b".toList = some [⟨['a'], TOK_WORD⟩, ⟨['|'], TOK_PIPE⟩, ⟨['b'], TOK_WORD⟩] := by
  refine ⟨?_, by rfl, by rfl⟩
  unfold lex
  simp only [List.append_assoc]
  rw [lexLoop_plain u hu _ [] [] (by simp), lexLoop_plain u hu _ [] [] (by simp)]
  by_cases hlen : ([] : CStr).length + u.length ≤ BUF_SIZE
  · rw [if_pos hlen, if_pos hlen]
    simp only [List.nil_append, List.singleton_append]
    rw [lexLoop_blank ' ' (Or.inl rfl)]
    simp only [List.mem_cons, List.mem_singleton, List.not_mem_nil, or_false] at hop
    rcases hop with rfl | rfl | rfl | rfl
    · simp only [List.singleton_append]
      rw [lexLoop_pipe, lexLoop_pipe, lexLoop_blank ' ' (Or.inl rfl), flush_word_nil,
        flush_word_nil]
    · simp only [List.singleton_append]
      rw [lexLoop_lt, lexLoop_lt, lexLoop_blank ' ' (Or.inl rfl), flush_word_nil,
        flush_word_nil]
    · simp only [List.singleton_append]
      rw [lexLoop_gt_plain v hv, lexLoop_gt_other ' ' (by decide),
        lexLoop_blank ' ' (Or.inl rfl), flush_word_nil, flush_word_nil]
    · simp only [List.cons_append, List.nil_append]
      rw [lexLoop_gt_gt, lexLoop_gt_gt, lexLoop_blank ' ' (Or.inl rfl), flush_word_nil,
        flush_word_nil]
  · rw [if_neg hlen, if_neg hlen]

theorem lex_operator_spacing_witness :
    (∀ c ∈ "ls".toList, plain c) ∧ (∀ c ∈ "log".toList, plain c)
      ∧ lex ("ls".toList ++ ['>', '>'] ++ "log".toList)
          = lex ("ls".toList ++ [' '] ++ ['>', '>'] ++ [' '] ++ "log".toList) :=
  ⟨by decide, by decide,
    (lex_operator_spacing "ls".toList "log".toList ['>', '>'] (by decide) (by decide)
      (by decide)).1⟩

/-- C3: whenever `lex` returns tokens for an input, twice the number of
`TOK_REDIR_APPEND` tokens plus the number of `TOK_REDIR_OUT` tokens is the
number of `>` characters of the input.  A `>` followed by a second `>` closes
the word in progress and adds one `>>` token for the two characters; a `>`
followed by another character, or by the end of the input, closes the word
and adds one `>` token.  `a>>b` lexes to `[Word a, RedirectAppend, Word b]`
and `a>b>c` to `[Word a, RedirectOut, Word b, RedirectOut, Word c]`. -/
theorem lex_redirect_out_tokens (s : CStr) (toks : List token) (h : lex s = some toks) :
    2 * toks.countP (fun t => decide (t.type = TOK_REDIR_APPEND))
        + toks.countP (fun t => decide (t.type = TOK_REDIR_OUT)) = s.count '>'
      ∧ (∀ (r : CStr) (head : List token) (buf : CStr),
          lexLoop ('>' :: '>' :: r) head buf
            = lexLoop r (flush_word head buf ++ [⟨['>', '>'], TOK_REDIR_APPEND⟩]) [])
      ∧ (∀ (d : Char) (r : CStr) (head : List token) (buf : CStr), d ≠ '>' →
          lexLoop ('>' :: d :: r) head buf
            = lexLoop (d :: r) (flush_word head buf ++ [⟨['>'], TOK_REDIR_OUT⟩]) [])
      ∧ (∀ (head : List token) (buf : CStr),
          lexLoop ['>'] head buf = some (flush_word head buf ++ [⟨['>'], TOK_REDIR_OUT⟩]))
      ∧ lex "a>>b".toList
          = some [⟨['a'], TOK_WORD⟩, ⟨['>', '>'], TOK_REDIR_APPEND⟩, ⟨['b'], TOK_WORD⟩]
      ∧ lex "a>b>c".toList
          = some [⟨['a'], TOK_WORD⟩, ⟨['>'], TOK_REDIR_OUT⟩, ⟨['b'], TOK_WORD⟩,
              ⟨['>'], TOK_REDIR_OUT⟩, ⟨['c'], TOK_WORD⟩] := by
  refine ⟨?_, ?_, ?_, ?_, by rfl, by rfl⟩
  · have := gt_weight_lexLoop s [] [] toks h
    simpa [gt_weight] using this
  · intro r head buf
    rw [lexLoop_gt_gt]; rfl
  · intro d r head buf hd
    rw [lexLoop_gt_other d hd]; rfl
  · intro head buf
    rw [lexLoop_gt_end]; rfl

theorem lex_redirect_out_tokens_witness :
    lex "a>b>>c".toList
        = some [⟨['a'], TOK_WORD⟩, ⟨['>'], TOK_REDIR_OUT⟩, ⟨['b'], TOK_WORD⟩,
            ⟨['>', '>'], TOK_REDIR_APPEND⟩, ⟨['c'], TOK_WORD⟩]
      ∧ 2 * [(⟨['a'], TOK_WORD⟩ : token), ⟨['>'], TOK_REDIR_OUT⟩, ⟨['b'], TOK_WORD⟩,
            ⟨['>', '>'], TOK_REDIR_APPEND⟩, ⟨['c'], TOK_WORD⟩].countP
              (fun t => decide (t.type = TOK_REDIR_APPEND))
          + [(⟨['a'], TOK_WORD⟩ : token), ⟨['>'], TOK_REDIR_OUT⟩, ⟨['b'], TOK_WORD⟩,
            ⟨['>', '>'], TOK_REDIR_APPEND⟩, ⟨['c'], TOK_WORD⟩].countP
              (fun t => decide (t.type = TOK_REDIR_OUT))
          = "a>b>>c".toList.count '>' :=
  ⟨by rfl, (lex_redirect_out_tokens "a>b>>c".toList _ (by rfl)).1⟩

/-! ## Blank lines -/

theorem lexLoop_blanks (s : CStr) (hs : ∀ c ∈ s, c = ' ' ∨ c = '\t') (head : List token) :
    lexLoop s head [] = some head := by
  induction s with
  | nil => rw [lexLoop_nil, flush_word_nil]
  | cons c s ih =>
    rw [lexLoop_blank c (hs c (List.mem_cons_self c s)), flush_word_nil]
    exact ih (fun d hd => hs d (List.mem_cons_of_mem c hd))

/-- C4: an input made only of spaces and tabs lexes to no token; `parse` of
no token is the chain of one stage with no argument, no redirect and no next
stage; and `execute` on that chain creates no child process, prints nothing,
leaves the working directory alone and does not exit: all it does is create
a pipe, call `wait` and close the pipe's write end. -/
theorem blank_line_no_action (s : CStr) (hs : ∀ c ∈ s, c = ' ' ∨ c = '\t') (env : Env)
    (sh : Shell) :
    lex s = some []
      ∧ parse [] = .ok [{ argv := [], in_file := none, out_file := none, append := false }]
      ∧ (execute env [{ argv := [], in_file := none, out_file := none, append := false }]
          sh).procs = sh.procs
      ∧ (execute env [{ argv := [], in_file := none, out_file := none, append := false }]
          sh).out = sh.out
      ∧ (execute env [{ argv := [], in_file := none, out_file := none, append := false }]
          sh).cwd = sh.cwd
      ∧ (execute env [{ argv := [], in_file := none, out_file := none, append := false }]
          sh).exited = sh.exited
      ∧ ∃ rd wr, (execute env
          [{ argv := [], in_file := none, out_file := none, append := false }] sh).calls
            = sh.calls ++ [Call.pipe rd wr, Call.wait, Call.close wr] := by
  refine ⟨lexLoop_blanks s hs [], by rfl, by rfl, by rfl, by rfl, by rfl, ?_⟩
  refine ⟨fd_lowest_free sh.fds,
    fd_lowest_free (fd_set sh.fds (fd_lowest_free sh.fds) (Desc.pipe_read sh.pipes)), ?_⟩
  simp [execute, execLoop, sys_pipe, builtin, sys_wait, sys_close]

theorem blank_line_no_action_witness :
    (∀ c ∈ " \t ".toList, c = ' ' ∨ c = '\t')
      ∧ lex " \t ".toList = some []
      ∧ (execute Env.sample [{ argv := [], in_file := none, out_file := none, append := false }]
          Shell.start).procs = [] :=
  ⟨by decide, (blank_line_no_action " \t ".toList (by decide) Env.sample Shell.start).1,
    (blank_line_no_action " \t ".toList (by decide) Env.sample Shell.start).2.2.1⟩

/-! ## The word buffer -/

theorem word_runs_nil : word_runs [] = [[]] := by
  simp [word_runs]

theorem word_runs_cons_plain (c : Char) (hc : plain c) (s : CStr) :
    word_runs (c :: s) = (word_runs s).modifyHead (List.cons c) := by
  simp [word_runs, hc]

theorem word_runs_cons_not_plain (c : Char) (hc : ¬ plain c) (s : CStr) :
    word_runs (c :: s) = [] :: word_runs s := by
  simp [word_runs, hc]

theorem word_runs_ne_nil (s : CStr) : word_runs s ≠ [] :=
  List.splitOnP_ne_nil _ s

theorem word_runs_length_le (s : CStr) : ∀ w ∈ word_runs s, w.length ≤ s.length := by
  induction s with
  | nil => simp [word_runs_nil]
  | cons c s ih =>
    by_cases hc : plain c
    · rw [word_runs_cons_plain c hc]
      obtain ⟨r, rs, hr⟩ := List.exists_cons_of_ne_nil (word_runs_ne_nil s)
      rw [hr] at ih ⊢
      intro w hw
      simp only [List.modifyHead_cons, List.mem_cons] at hw
      rcases hw with rfl | hw
      · have := ih r (List.mem_cons_self r rs)
        simp only [List.length_cons]
        omega
      · have := ih w (List.mem_cons_of_mem r hw)
        simp only [List.length_cons]
        omega
    · rw [word_runs_cons_not_plain c hc]
      intro w hw
      simp only [List.mem_cons] at hw
      rcases hw with rfl | hw
      · simp
      · have := ih w hw
        simp only [List.length_cons]
        omega

/-- The buffer never overflows exactly when the word in progress together
with the first run, and every later run, fit the buffer. -/
theorem lexLoop_isSome_iff (s : CStr) (head : List token) (buf : CStr)
    (hbuf : buf.length ≤ BUF_SIZE) :
    (lexLoop s head buf).isSome
      ↔ ∀ w ∈ (word_runs s).modifyHead (fun r => buf ++ r), w.length ≤ BUF_SIZE := by
  have hnil : ∀ r : List CStr,
      (∀ w ∈ r.modifyHead (fun x => ([] : CStr) ++ x), w.length ≤ BUF_SIZE)
        ↔ ∀ w ∈ r, w.length ≤ BUF_SIZE := by
    intro r; cases r <;> simp
  have hsep : ∀ (c : Char) (r : CStr) (b : CStr), ¬ plain c → b.length ≤ BUF_SIZE →
      ((∀ w ∈ (word_runs (c :: r)).modifyHead (fun x => b ++ x), w.length ≤ BUF_SIZE)
        ↔ ∀ w ∈ word_runs r, w.length ≤ BUF_SIZE) := by
    intro c r b hc hb
    rw [word_runs_cons_not_plain c hc]
    simp [hb]
  induction s, head, buf using lexLoop.induct with
  | case1 head buf => simp [lexLoop_nil, word_runs_nil, hbuf]
  | case2 c s head buf hc ih =>
    have hnp : ¬ plain c := fun h => by rcases hc with e | e; exact h.1 e; exact h.2.1 e
    rw [lexLoop_blank c hc, hsep c s buf hnp hbuf]
    exact (ih (Nat.zero_le _)).trans (hnil _)
  | case3 s head buf _ ih =>
    rw [lexLoop_pipe, hsep _ s buf (by decide) hbuf]
    exact (ih (Nat.zero_le _)).trans (hnil _)
  | case4 s head buf _ _ ih =>
    rw [lexLoop_lt, hsep _ s buf (by decide) hbuf]
    exact (ih (Nat.zero_le _)).trans (hnil _)
  | case5 head buf s _ _ _ ih =>
    rw [lexLoop_gt_gt, hsep _ _ buf (by decide) hbuf, word_runs_cons_not_plain _ (by decide)]
    refine ((ih (Nat.zero_le _)).trans (hnil _)).trans ?_
    simp
  | case6 head buf d s hd _ _ _ ih =>
    rw [lexLoop_gt_other d hd, hsep _ _ buf (by decide) hbuf]
    exact (ih (Nat.zero_le _)).trans (hnil _)
  | case7 head buf _ _ _ _ =>
    rw [lexLoop_gt_end, hsep _ _ buf (by decide) hbuf]
    simp [word_runs_nil]
  | case8 c s head buf h1 h2 h3 h4 hlt ih =>
    have hc : plain c := ⟨fun e => h1 (Or.inl e), fun e => h1 (Or.inr e), h2, h3, h4⟩
    rw [lexLoop_plain_cons c hc, if_pos hlt, word_runs_cons_plain c hc]
    refine (ih (by rw [List.length_append, List.length_singleton]; exact hlt)).trans ?_
    obtain ⟨r, rs, hr⟩ := List.exists_cons_of_ne_nil (word_runs_ne_nil s)
    rw [hr]
    simp
  | case9 c s head buf h1 h2 h3 h4 hlt =>
    have hc : plain c := ⟨fun e => h1 (Or.inl e), fun e => h1 (Or.inr e), h2, h3, h4⟩
    rw [lexLoop_plain_cons c hc, if_neg hlt, word_runs_cons_plain c hc]
    obtain ⟨r, rs, hr⟩ := List.exists_cons_of_ne_nil (word_runs_ne_nil s)
    rw [hr]
    simp
    intro h
    omega

/-- C5, as the code has it: `lex` returns a token sequence, every write into
its word buffer being within bounds, exactly when no maximal run of
characters other than space, tab, `|`, `<`, `>` is longer than the 1024
characters of the buffer; so it does on every input of at most 1024
characters, which covers the lines `main` reads. -/
theorem lex_succeeds_iff_runs_fit (s : CStr) :
    ((lex s).isSome ↔ ∀ w ∈ word_runs s, w.length ≤ 1024)
      ∧ (s.length ≤ 1024 → (lex s).isSome) := by
  have key : (lex s).isSome ↔ ∀ w ∈ word_runs s, w.length ≤ 1024 := by
    unfold lex
    rw [lexLoop_isSome_iff s [] [] (by simp)]
    cases word_runs s <;> simp [BUF_SIZE]
  exact ⟨key, fun hlen => key.mpr fun w hw => (word_runs_length_le s w hw).trans hlen⟩

theorem lex_succeeds_iff_runs_fit_witness :
    "ls -l | wc".toList.length ≤ 1024 ∧ (lex "ls -l | wc".toList).isSome :=
  ⟨by decide, (lex_succeeds_iff_runs_fit "ls -l | wc".toList).2 (by decide)⟩

/-- C5 fails as stated: on a word of 1025 letters the lexer writes `buf[1024]`,
outside its buffer. -/
theorem lex_overflows_on_long_word : lex (List.replicate 1025 'a') = none := by
  have hw : ∀ c ∈ List.replicate 1025 'a', plain c := by
    intro c hc
    rw [List.eq_of_mem_replicate hc]
    decide
  have h := lexLoop_plain (List.replicate 1025 'a') hw [] [] [] (by simp)
  rw [List.append_nil] at h
  unfold lex
  rw [h, if_neg]
  simp only [List.length_nil, List.length_replicate, BUF_SIZE]
  omega

/-! ## Parser: words, pipes and input redirections -/

theorem parseLoop_nil (done : List command) (cur : command)
    (h : cur.argv.length < ARGV_SLOTS) : parseLoop [] done cur = .ok (done ++ [cur]) := by
  rw [parseLoop.eq_def]; simp [h]

theorem parseLoop_word (t : token) (ht : t.type = TOK_WORD) (ts : List token)
    (done : List command) (cur : command) (h : cur.argv.length < ARGV_SLOTS) :
    parseLoop (t :: ts) done cur
      = parseLoop ts done { cur with argv := cur.argv ++ [t.value] } := by
  rw [parseLoop.eq_def]; simp [ht, h]

theorem parseLoop_pipe (t : token) (ht : t.type = TOK_PIPE) (ts : List token)
    (done : List command) (cur : command) (h : cur.argv.length < ARGV_SLOTS) :
    parseLoop (t :: ts) done cur = parseLoop ts (done ++ [cur]) new_command := by
  rw [parseLoop.eq_def]; simp [ht, h]

theorem parseLoop_redir_in (t : token) (ht : t.type = TOK_REDIR_IN) (x : token)
    (ts : List token) (done : List command) (cur : command) :
    parseLoop (t :: x :: ts) done cur
      = parseLoop ts done { cur with in_file := some x.value } := by
  rw [parseLoop.eq_def]; simp [ht]

theorem parseLoop_words (ws : List token) (hws : ∀ t ∈ ws, t.type = TOK_WORD)
    (ts : List token) (done : List command) (cur : command)
    (h : cur.argv.length + ws.length ≤ ARGV_SLOTS) :
    parseLoop (ws ++ ts) done cur
      = parseLoop ts done { cur with argv := cur.argv ++ ws.map token.value } := by
  induction ws generalizing cur with
  | nil => simp
  | cons w ws ih =>
    simp only [List.length_cons] at h
    rw [List.cons_append, parseLoop_word w (hws w (List.mem_cons_self w ws)) _ _ _ (by omega),
      ih (fun t ht => hws t (List.mem_cons_of_mem w ht)) _
        (by simp only [List.length_append, List.length_singleton]; omega)]
    simp

theorem pipe_groups_nil : pipe_groups [] = [[]] := by
  simp [pipe_groups]

theorem pipe_groups_cons_pipe (t : token) (ht : t.type = TOK_PIPE) (ts : List token) :
    pipe_groups (t :: ts) = [] :: pipe_groups ts := by
  simp [pipe_groups, ht]

theorem pipe_groups_cons_other (t : token) (ht : t.type ≠ TOK_PIPE) (ts : List token) :
    pipe_groups (t :: ts) = (pipe_groups ts).modifyHead (List.cons t) := by
  simp [pipe_groups, ht]

theorem pipe_groups_ne_nil (ts : List token) : pipe_groups ts ≠ [] :=
  List.splitOnP_ne_nil _ ts

theorem pipe_groups_length (ts : List token) :
    (pipe_groups ts).length = ts.countP (fun t => decide (t.type = TOK_PIPE)) + 1 := by
  induction ts with
  | nil => simp [pipe_groups_nil]
  | cons t ts ih =>
    by_cases ht : t.type = TOK_PIPE
    · rw [pipe_groups_cons_pipe t ht, List.length_cons, ih, List.countP_cons_of_pos _ _ (by simpa using ht)]
    · rw [pipe_groups_cons_other t ht, List.length_modifyHead, ih,
        List.countP_cons_of_neg _ _ (by simpa using ht)]

/-- On words and pipes only, the loop finishes the current stage with the
first group appended to its arguments and opens one fresh stage per later
group. -/
theorem parseLoop_words_pipes (ts : List token)
    (hty : ∀ t ∈ ts, t.type = TOK_WORD ∨ t.type = TOK_PIPE) (done : List command)
    (cur : command) (g : List token) (gs : List (List token)) (hg : pipe_groups ts = g :: gs)
    (hlen : cur.argv.length + g.length < ARGV_SLOTS)
    (hlens : ∀ r ∈ gs, r.length < ARGV_SLOTS) :
    parseLoop ts done cur
      = .ok (done ++ { cur with argv := cur.argv ++ g.map token.value }
          :: gs.map (fun r =>
              { argv := r.map token.value, in_file := none, out_file := none,
                append := false })) := by
  induction ts generalizing done cur g gs with
  | nil =>
    rw [pipe_groups_nil] at hg
    simp only [List.cons.injEq] at hg
    obtain ⟨rfl, rfl⟩ := hg
    rw [parseLoop_nil _ _ (by simpa using hlen)]
    simp
  | cons t ts ih =>
    have hty' : ∀ u ∈ ts, u.type = TOK_WORD ∨ u.type = TOK_PIPE :=
      fun u hu => hty u (List.mem_cons_of_mem t hu)
    obtain ⟨g', gs', hg'⟩ := List.exists_cons_of_ne_nil (pipe_groups_ne_nil ts)
    rcases hty t (List.mem_cons_self t ts) with ht | ht
    · rw [pipe_groups_cons_other t (by rw [ht]; decide), hg'] at hg
      simp only [List.modifyHead_cons, List.cons.injEq] at hg
      obtain ⟨rfl, rfl⟩ := hg
      simp only [List.length_cons] at hlen
      rw [parseLoop_word t ht _ _ _ (by omega),
        ih hty' done _ g' gs' hg'
          (by simp only [List.length_append, List.length_singleton]; omega) hlens]
      simp
    · rw [pipe_groups_cons_pipe t ht, hg'] at hg
      simp only [List.cons.injEq] at hg
      obtain ⟨rfl, rfl⟩ := hg
      rw [parseLoop_pipe t ht _ _ _ (by simpa using hlen),
        ih hty' (done ++ [cur]) new_command g' gs' hg'
          (by simpa [new_command] using hlens g' (List.mem_cons_self g' gs'))
          (fun r hr => hlens r (List.mem_cons_of_mem g' hr))]
      simp [new_command]

/-- C6: on a token sequence of words and pipes only, with at most 63 words
between consecutive pipes, `parse` returns one stage per group of tokens
between pipes, in order: as many stages as pipes plus one, each with the
texts of its group as arguments, in order, and with no redirect. -/
theorem parse_words_pipes (ts : List token)
    (hty : ∀ t ∈ ts, t.type = TOK_WORD ∨ t.type = TOK_PIPE)
    (hlen : ∀ g ∈ pipe_groups ts, g.length ≤ 63) :
    parse ts
        = .ok ((pipe_groups ts).map (fun g =>
            { argv := g.map token.value, in_file := none, out_file := none,
              append := false }))
      ∧ (pipe_groups ts).length = ts.countP (fun t => decide (t.type = TOK_PIPE)) + 1
      ∧ ts.filter (fun t => decide (t.type = TOK_WORD)) = (pipe_groups ts).flatten := by
  refine ⟨?_, pipe_groups_length ts, ?_⟩
  · obtain ⟨g, gs, hg⟩ := List.exists_cons_of_ne_nil (pipe_groups_ne_nil ts)
    rw [hg] at hlen
    unfold parse
    rw [parseLoop_words_pipes ts hty [] new_command g gs hg
      (by have := hlen g (List.mem_cons_self g gs); simp [new_command, ARGV_SLOTS]; omega)
      (fun r hr => by
        have := hlen r (List.mem_cons_of_mem g hr); simp only [ARGV_SLOTS]; omega), hg]
    simp [new_command]
  · clear hlen
    induction ts with
    | nil => simp [pipe_groups_nil]
    | cons t ts ih =>
      have ih := ih (fun u hu => hty u (List.mem_cons_of_mem t hu))
      obtain ⟨g, gs, hg⟩ := List.exists_cons_of_ne_nil (pipe_groups_ne_nil ts)
      rcases hty t (List.mem_cons_self t ts) with ht | ht
      · rw [pipe_groups_cons_other t (by rw [ht]; decide), List.filter_cons_of_pos (by simpa using ht), ih, hg]
        simp
      · rw [pipe_groups_cons_pipe t ht, List.filter_cons_of_neg (by rw [ht]; decide), ih]
        simp

theorem parse_words_pipes_witness :
    (∀ t ∈ [(⟨['a'], TOK_WORD⟩ : token), ⟨['b'], TOK_WORD⟩, ⟨['|'], TOK_PIPE⟩, ⟨['c'], TOK_WORD⟩],
        t.type = TOK_WORD ∨ t.type = TOK_PIPE)
      ∧ (∀ g ∈ pipe_groups
          [(⟨['a'], TOK_WORD⟩ : token), ⟨['b'], TOK_WORD⟩, ⟨['|'], TOK_PIPE⟩, ⟨['c'], TOK_WORD⟩],
            g.length ≤ 63)
      ∧ parse [⟨['a'], TOK_WORD⟩, ⟨['b'], TOK_WORD⟩, ⟨['|'], TOK_PIPE⟩, ⟨['c'], TOK_WORD⟩]
          = .ok ((pipe_groups
              [⟨['a'], TOK_WORD⟩, ⟨['b'], TOK_WORD⟩, ⟨['|'], TOK_PIPE⟩, ⟨['c'], TOK_WORD⟩]).map
                (fun g => { argv := g.map token.value, in_file := none, out_file := none,
                            append := false })) :=
  ⟨by decide, by decide,
    (parse_words_pipes
      [⟨['a'], TOK_WORD⟩, ⟨['b'], TOK_WORD⟩, ⟨['|'], TOK_PIPE⟩, ⟨['c'], TOK_WORD⟩]
      (by decide) (by decide)).1⟩

/-- C7: a `TOK_REDIR_IN` token `t` followed by any token `x` is consumed
together with it: the loop goes on after `x` with the same finished stages
and the same current stage, only its `in_file` set to the text of `x`,
whatever the type of `x`; no argument is added, no stage opened, `out_file`
is untouched.  A later pair in the same stage replaces the path.  A line of
words around one pair parses to one stage with the words as arguments; the
tokens of `a < | b` give one stage with arguments `[a, b]` reading from `|`. -/
theorem parse_redirect_in_pair (t x : token) (ht : t.type = TOK_REDIR_IN) (rest : List token)
    (done : List command) (cur : command) :
    parseLoop (t :: x :: rest) done cur
        = parseLoop rest done { cur with in_file := some x.value }
      ∧ (∀ (u y : token) (ws : List token), u.type = TOK_REDIR_IN →
          (∀ w ∈ ws, w.type = TOK_WORD) → cur.argv.length + ws.length ≤ 64 →
          parseLoop (t :: x :: (ws ++ u :: y :: rest)) done cur
            = parseLoop rest done
                { cur with argv := cur.argv ++ ws.map token.value, in_file := some y.value })
      ∧ (∀ (ws1 ws2 : List token), (∀ w ∈ ws1, w.type = TOK_WORD) →
          (∀ w ∈ ws2, w.type = TOK_WORD) → ws1.length + ws2.length ≤ 63 →
          parse (ws1 ++ t :: x :: ws2)
            = .ok [{ argv := ws1.map token.value ++ ws2.map token.value,
                     in_file := some x.value, out_file := none, append := false }])
      ∧ lex "a < | b".toList
          = some [⟨['a'], TOK_WORD⟩, ⟨['<'], TOK_REDIR_IN⟩, ⟨['|'], TOK_PIPE⟩, ⟨['b'], TOK_WORD⟩]
      ∧ parse [⟨['a'], TOK_WORD⟩, ⟨['<'], TOK_REDIR_IN⟩, ⟨['|'], TOK_PIPE⟩, ⟨['b'], TOK_WORD⟩]
          = .ok [{ argv := [['a'], ['b']], in_file := some ['|'], out_file := none,
                   append := false }] := by
  refine ⟨parseLoop_redir_in t ht x rest done cur, ?_, ?_, by rfl, by rfl⟩
  · intro u y ws hu hws hlen
    rw [parseLoop_redir_in t ht, parseLoop_words ws hws _ _ _ (by simpa [ARGV_SLOTS] using hlen),
      parseLoop_redir_in u hu]
  · intro ws1 ws2 h1 h2 hlen
    unfold parse
    rw [parseLoop_words ws1 h1 _ _ _ (by simp [new_command, ARGV_SLOTS]; omega),
      parseLoop_redir_in t ht,
      ← List.append_nil ws2, parseLoop_words ws2 h2 _ _ _ (by simp [new_command, ARGV_SLOTS]; omega),
      parseLoop_nil _ _ (by simp [new_command, ARGV_SLOTS]; omega)]
    simp [new_command]

theorem parse_redirect_in_pair_witness :
    (⟨['<'], TOK_REDIR_IN⟩ : token).type = TOK_REDIR_IN
      ∧ parseLoop [⟨['<'], TOK_REDIR_IN⟩, ⟨['>'], TOK_REDIR_OUT⟩, ⟨['x'], TOK_WORD⟩] []
            new_command
          = parseLoop [⟨['x'], TOK_WORD⟩] [] { new_command with in_file := some ['>'] } :=
  ⟨rfl, (parse_redirect_in_pair ⟨['<'], TOK_REDIR_IN⟩ ⟨['>'], TOK_REDIR_OUT⟩ rfl
    [⟨['x'], TOK_WORD⟩] [] new_command).1⟩

/-! ## Builtin dispatch -/

/-- C8: for a stage with a first argument, the outcome of `builtin` depends
on that argument alone, compared exactly: handled iff it is `cd`, `pwd`,
`echo` or `type`; exit with status 0 (and no other exit) iff it is `exit`;
not handled iff it is none of the five.  So `Echo`, `cdx` and the empty name
are not handled. -/
theorem builtin_dispatch_by_name (env : Env) (c : command) (sh : Shell) (a0 : CStr)
    (args : List CStr) (h : c.argv = a0 :: args) :
    ((builtin env c sh).1 = dispatch.handled
        ↔ a0 ∈ ["cd".toList, "pwd".toList, "echo".toList, "type".toList])
      ∧ ((builtin env c sh).1 = dispatch.exited 0 ↔ a0 = "exit".toList)
      ∧ (∀ n, (builtin env c sh).1 = dispatch.exited n → n = 0)
      ∧ (a0 = "exit".toList → (builtin env c sh).2.exited = some 0)
      ∧ ((builtin env c sh).1 = dispatch.not_handled
        ↔ a0 ∉ ["exit".toList, "cd".toList, "pwd".toList, "echo".toList, "type".toList])
      ∧ (a0 ∈ ["Echo".toList, "cdx".toList, "".toList]
        → (builtin env c sh).1 = dispatch.not_handled) := by
  have key : (builtin env c sh).1 = dispatch.not_handled
      ↔ a0 ∉ ["exit".toList, "cd".toList, "pwd".toList, "echo".toList, "type".toList] := by
    simp only [builtin, h]
    split_ifs with h1 h2 h3 h4 h5 <;> simp_all
  refine ⟨?_, ?_, ?_, ?_, key, ?_⟩
  · simp only [builtin, h]
    split_ifs with h1 h2 h3 h4 h5 <;> simp_all
  · simp only [builtin, h]
    split_ifs with h1 h2 h3 h4 h5 <;> simp_all
  · intro n
    simp only [builtin, h]
    split_ifs with h1 h2 h3 h4 h5 <;> simp_all
  · intro he
    simp only [builtin, h, he, if_true]
  · intro hmem
    refine key.mpr ?_
    simp only [List.mem_cons, List.mem_singleton, List.not_mem_nil, or_false] at hmem
    rcases hmem with rfl | rfl | rfl <;> decide

theorem builtin_dispatch_by_name_witness :
    ({ argv := ["Echo".toList, "hi".toList], in_file := none, out_file := none,
       append := false } : command).argv = "Echo".toList :: ["hi".toList]
      ∧ (builtin Env.sample
          { argv := ["Echo".toList, "hi".toList], in_file := none, out_file := none,
            append := false } Shell.start).1 = dispatch.not_handled :=
  ⟨rfl, (builtin_dispatch_by_name Env.sample
    { argv := ["Echo".toList, "hi".toList], in_file := none, out_file := none,
      append := false } Shell.start "Echo".toList ["hi".toList] rfl).2.2.2.2.2 (by decide)⟩

/-- C9 fails as stated: on the stage with no argument `builtin` returns 1,
not 0. -/
theorem builtin_empty_argv_is_handled :
    (builtin Env.sample { argv := [], in_file := none, out_file := none, append := false }
        Shell.start).1 = dispatch.handled
      ∧ (builtin Env.sample { argv := [], in_file := none, out_file := none, append := false }
        Shell.start).1 ≠ dispatch.not_handled := by
  constructor
  · rfl
  · intro h; cases h

/-- C9, as the code has it: for a stage whose argument list is empty,
`builtin` returns handled straight away, changing nothing, so `execute` does
not treat the stage as an external program: it creates the pipe, forks no
child, and goes on to the next stage. -/
theorem builtin_empty_argv (env : Env) (c : command) (sh : Shell) (h : c.argv = []) :
    builtin env c sh = (dispatch.handled, sh)
      ∧ (∀ (cs : List command) (fd_in : Nat),
          execLoop env (c :: cs) fd_in sh
            = execLoop env cs (sys_pipe sh).1
                (sys_close (sys_wait (sys_pipe sh).2.2) (sys_pipe sh).2.1))
      ∧ (execute env [c] sh).procs = sh.procs := by
  have hb : ∀ s : Shell, builtin env c s = (dispatch.handled, s) := by
    intro s; simp only [builtin, h]
  refine ⟨hb sh, ?_, ?_⟩
  · intro cs fd_in
    simp only [execLoop, hb]
  · simp only [execute, execLoop, hb]
    rfl

theorem builtin_empty_argv_witness :
    new_command.argv = []
      ∧ builtin Env.sample new_command Shell.start = (dispatch.handled, Shell.start) :=
  ⟨rfl, (builtin_empty_argv Env.sample new_command Shell.start rfl).1⟩

/-! ## echo -/

theorem echo_text_eq_intercalate (a : CStr) (as : List CStr) :
    echo_text (a :: as) = [' '].intercalate (a :: as) ++ ['\n'] := by
  induction as generalizing a with
  | nil => simp [echo_text, List.intercalate]
  | cons b bs ih =>
    rw [echo_text, ih b]
    simp [List.intercalate, List.intersperse]

/-- C10: for a stage whose arguments are `echo` followed by at least one
more, `builtin` reports handled and prints the further arguments joined by
single spaces and followed by one newline, nothing else changing; `echo a b c`
prints `a b c` and a newline. -/
theorem echo_prints_joined_arguments (env : Env) (c : command) (sh : Shell) (a : CStr)
    (as : List CStr) (h : c.argv = "echo".toList :: a :: as) :
    builtin env c sh
        = (dispatch.handled,
            { sh with out := sh.out ++ ([' '].intercalate (a :: as) ++ ['\n']) })
      ∧ (builtin env
          { argv := ["echo".toList, ['a'], ['b'], ['c']], in_file := none, out_file := none,
            append := false } Shell.start).2.out = "a b c\n".toList := by
  constructor
  · simp only [builtin, h]
    rw [if_neg (by decide), if_neg (by decide), if_neg (by decide), if_pos trivial,
      echo_text_eq_intercalate]
    rfl
  · rfl

theorem echo_prints_joined_arguments_witness :
    ({ argv := ["echo".toList, "x".toList, "yz".toList], in_file := none, out_file := none,
       append := false } : command).argv = "echo".toList :: "x".toList :: ["yz".toList]
      ∧ builtin Env.sample
          { argv := ["echo".toList, "x".toList, "yz".toList], in_file := none,
            out_file := none, append := false } Shell.start
        = (dispatch.handled,
            { Shell.start with
              out := Shell.start.out ++ ([' '].intercalate ["x".toList, "yz".toList] ++ ['\n']) }) :=
  ⟨rfl, (echo_prints_joined_arguments Env.sample
    { argv := ["echo".toList, "x".toList, "yz".toList], in_file := none, out_file := none,
      append := false } Shell.start "x".toList ["yz".toList] rfl).1⟩

/-! ## Lexer: characters kept, token texts, composition over blanks -/

theorem flush_word_text (head : List token) (buf : CStr) :
    ((flush_word head buf).map token.value).flatten
      = (head.map token.value).flatten ++ buf := by
  unfold flush_word add_token
  split
  · simp
  · rename_i h
    have : buf = [] := by
      cases buf with
      | nil => rfl
      | cons c r => simp at h
    simp [this]

theorem add_token_text (head : List token) (data : CStr) (len : Nat) (ty : token_type) :
    ((add_token head data len ty).map token.value).flatten
      = (head.map token.value).flatten ++ data.take len := by
  simp [add_token]

/-- The texts of the tokens, concatenated, are the texts of the tokens at
hand, the word in progress and the non-blank characters still to read. -/
theorem lexLoop_text (s : CStr) (head : List token) (buf : CStr) (toks : List token)
    (h : lexLoop s head buf = some toks) :
    (toks.map token.value).flatten
      = (head.map token.value).flatten ++ buf
          ++ s.filter (fun c => !decide (c = ' ' ∨ c = '\t')) := by
  induction s, head, buf using lexLoop.induct generalizing toks with
  | case1 head buf =>
    rw [lexLoop_nil] at h
    simp only [Option.some.injEq] at h
    subst h
    simp [flush_word_text]
  | case2 c s head buf hc ih =>
    rw [lexLoop_blank c hc] at h
    rw [ih toks h, flush_word_text, List.filter_cons_of_neg (by simp [hc])]
    simp
  | case3 s head buf _ ih =>
    rw [lexLoop_pipe] at h
    rw [ih toks h, add_token_text, flush_word_text, List.filter_cons_of_pos (by decide)]
    simp
  | case4 s head buf _ _ ih =>
    rw [lexLoop_lt] at h
    rw [ih toks h, add_token_text, flush_word_text, List.filter_cons_of_pos (by decide)]
    simp
  | case5 head buf s _ _ _ ih =>
    rw [lexLoop_gt_gt] at h
    rw [ih toks h, add_token_text, flush_word_text, List.filter_cons_of_pos (by decide),
      List.filter_cons_of_pos (by decide)]
    simp
  | case6 head buf d s hd _ _ _ ih =>
    rw [lexLoop_gt_other d hd] at h
    rw [ih toks h, add_token_text, flush_word_text,
      List.filter_cons_of_pos (a := '>') (by decide)]
    simp
  | case7 head buf _ _ _ _ =>
    rw [lexLoop_gt_end] at h
    simp only [Option.some.injEq] at h
    subst h
    rw [add_token_text, flush_word_text]
    simp
  | case8 c s head buf h1 h2 h3 h4 hlt ih =>
    have hc : plain c := ⟨fun e => h1 (Or.inl e), fun e => h1 (Or.inr e), h2, h3, h4⟩
    rw [lexLoop_plain_cons c hc, if_pos hlt] at h
    rw [ih toks h, List.filter_cons_of_pos (by simp [h1])]
    simp
  | case9 c s head buf h1 h2 h3 h4 hlt =>
    have hc : plain c := ⟨fun e => h1 (Or.inl e), fun e => h1 (Or.inr e), h2, h3, h4⟩
    rw [lexLoop_plain_cons c hc, if_neg hlt] at h
    exact absurd h (by simp)

theorem flush_word_ok (head : List token) (buf : CStr) (hh : ∀ t ∈ head, token_ok t)
    (hb : ∀ c ∈ buf, plain c) : ∀ t ∈ flush_word head buf, token_ok t := by
  unfold flush_word add_token
  split
  · rename_i hne
    intro t ht
    simp only [List.mem_append, List.mem_singleton] at ht
    rcases ht with ht | rfl
    · exact hh t ht
    · refine ⟨?_, ?_⟩
      · simpa using hne
      · simpa using hb
  · exact hh

theorem add_token_ok (head : List token) (data : CStr) (len : Nat) (ty : token_type)
    (hh : ∀ t ∈ head, token_ok t) (hn : token_ok ⟨data.take len, ty⟩) :
    ∀ t ∈ add_token head data len ty, token_ok t := by
  intro t ht
  simp only [add_token, List.mem_append, List.mem_singleton] at ht
  rcases ht with ht | rfl
  · exact hh t ht
  · exact hn

/-- Every token the loop returns is well formed when those at hand are and
the word in progress is made of plain characters. -/
theorem lexLoop_ok (s : CStr) (head : List token) (buf : CStr) (toks : List token)
    (hh : ∀ t ∈ head, token_ok t) (hb : ∀ c ∈ buf, plain c)
    (h : lexLoop s head buf = some toks) : ∀ t ∈ toks, token_ok t := by
  have hnil : ∀ c ∈ ([] : CStr), plain c := fun c hc => absurd hc (List.not_mem_nil c)
  induction s, head, buf using lexLoop.induct generalizing toks with
  | case1 head buf =>
    rw [lexLoop_nil] at h
    simp only [Option.some.injEq] at h
    subst h
    exact flush_word_ok head buf hh hb
  | case2 c s head buf hc ih =>
    rw [lexLoop_blank c hc] at h
    exact ih toks (flush_word_ok head buf hh hb) hnil h
  | case3 s head buf _ ih =>
    rw [lexLoop_pipe] at h
    exact ih toks (add_token_ok _ _ _ _ (flush_word_ok head buf hh hb) rfl) hnil h
  | case4 s head buf _ _ ih =>
    rw [lexLoop_lt] at h
    exact ih toks (add_token_ok _ _ _ _ (flush_word_ok head buf hh hb) rfl) hnil h
  | case5 head buf s _ _ _ ih =>
    rw [lexLoop_gt_gt] at h
    exact ih toks (add_token_ok _ _ _ _ (flush_word_ok head buf hh hb) rfl) hnil h
  | case6 head buf d s hd _ _ _ ih =>
    rw [lexLoop_gt_other d hd] at h
    exact ih toks (add_token_ok _ _ _ _ (flush_word_ok head buf hh hb) rfl) hnil h
  | case7 head buf _ _ _ _ =>
    rw [lexLoop_gt_end] at h
    simp only [Option.some.injEq] at h
    subst h
    exact add_token_ok _ _ _ _ (flush_word_ok head buf hh hb) rfl
  | case8 c s head buf h1 h2 h3 h4 hlt ih =>
    have hc : plain c := ⟨fun e => h1 (Or.inl e), fun e => h1 (Or.inr e), h2, h3, h4⟩
    rw [lexLoop_plain_cons c hc, if_pos hlt] at h
    refine ih toks hh ?_ h
    intro d hd
    simp only [List.mem_append, List.mem_singleton] at hd
    rcases hd with hd | rfl
    · exact hb d hd
    · exact hc
  | case9 c s head buf h1 h2 h3 h4 hlt =>
    have hc : plain c := ⟨fun e => h1 (Or.inl e), fun e => h1 (Or.inr e), h2, h3, h4⟩
    rw [lexLoop_plain_cons c hc, if_neg hlt] at h
    exact absurd h (by simp)

/-- C19: on an input in which no maximal run of characters other than space,
tab, `|`, `<`, `>` is longer than the 1024 characters of the word buffer,
`lex` returns tokens whose texts, concatenated in order, are the input with
its spaces and tabs removed; every word token is non-empty and free of
space, tab, `|`, `<`, `>`, and every operator token carries exactly the text
of its kind: `|`, `<`, `>` or `>>`. -/
theorem lex_keeps_characters (s : CStr) (h : ∀ w ∈ word_runs s, w.length ≤ 1024) :
    ∃ toks, lex s = some toks
      ∧ (toks.map token.value).flatten = s.filter (fun c => !decide (c = ' ' ∨ c = '\t'))
      ∧ ∀ t ∈ toks,
          (t.type = TOK_WORD → t.value ≠ [] ∧ ∀ c ∈ t.value,
              c ≠ ' ' ∧ c ≠ '\t' ∧ c ≠ '|' ∧ c ≠ '<' ∧ c ≠ '>')
          ∧ (t.type = TOK_PIPE → t.value = ['|'])
          ∧ (t.type = TOK_REDIR_IN → t.value = ['<'])
          ∧ (t.type = TOK_REDIR_OUT → t.value = ['>'])
          ∧ (t.type = TOK_REDIR_APPEND → t.value = ['>', '>']) := by
  have hsome : (lex s).isSome := (lexLoop_isSome_iff s [] [] (by simp)).mpr (by
    cases hw : word_runs s with
    | nil => simp
    | cons r rs =>
      rw [hw] at h
      simpa [BUF_SIZE] using h)
  obtain ⟨toks, htoks⟩ := Option.isSome_iff_exists.mp hsome
  refine ⟨toks, htoks, ?_, ?_⟩
  · have := lexLoop_text s [] [] toks htoks
    simpa using this
  · intro t ht
    have hok := lexLoop_ok s [] [] toks (fun t ht => absurd ht (List.not_mem_nil t))
      (fun c hc => absurd hc (List.not_mem_nil c)) htoks t ht
    unfold token_ok at hok
    cases hty : t.type <;> rw [hty] at hok <;> dsimp only at hok
    · exact ⟨fun _ => hok, nofun, nofun, nofun, nofun⟩
    · exact ⟨nofun, fun _ => hok, nofun, nofun, nofun⟩
    · exact ⟨nofun, nofun, nofun, fun _ => hok, nofun⟩
    · exact ⟨nofun, nofun, nofun, nofun, fun _ => hok⟩
    · exact ⟨nofun, nofun, fun _ => hok, nofun, nofun⟩

theorem lex_keeps_characters_witness :
    (∀ w ∈ word_runs "ls -l>>out |wc".toList, w.length ≤ 1024)
      ∧ ∃ toks, lex "ls -l>>out |wc".toList = some toks
          ∧ (toks.map token.value).flatten = "ls-l>>out|wc".toList :=
  ⟨by decide,
    (lex_keeps_characters "ls -l>>out |wc".toList (by decide)).imp
      (fun _ h => ⟨h.1, h.2.1⟩)⟩

theorem flush_word_append (pre head : List token) (buf : CStr) :
    flush_word (pre ++ head) buf = pre ++ flush_word head buf := by
  unfold flush_word add_token
  split <;> simp

theorem add_token_append (pre head : List token) (data : CStr) (len : Nat)
    (ty : token_type) :
    add_token (pre ++ head) data len ty = pre ++ add_token head data len ty := by
  simp [add_token]

/-- Tokens already at hand are only ever extended at the tail. -/
theorem lexLoop_append_head (s : CStr) (pre head : List token) (buf : CStr) :
    lexLoop s (pre ++ head) buf = (lexLoop s head buf).map (fun r => pre ++ r) := by
  induction s, head, buf using lexLoop.induct with
  | case1 head buf => simp [lexLoop_nil, flush_word_append]
  | case2 c s head buf hc ih =>
    rw [lexLoop_blank c hc, lexLoop_blank c hc, flush_word_append]
    exact ih
  | case3 s head buf _ ih =>
    rw [lexLoop_pipe, lexLoop_pipe, flush_word_append, add_token_append]
    exact ih
  | case4 s head buf _ _ ih =>
    rw [lexLoop_lt, lexLoop_lt, flush_word_append, add_token_append]
    exact ih
  | case5 head buf s _ _ _ ih =>
    rw [lexLoop_gt_gt, lexLoop_gt_gt, flush_word_append, add_token_append]
    exact ih
  | case6 head buf d s hd _ _ _ ih =>
    rw [lexLoop_gt_other d hd, lexLoop_gt_other d hd, flush_word_append, add_token_append]
    exact ih
  | case7 head buf _ _ _ _ =>
    rw [lexLoop_gt_end, lexLoop_gt_end, flush_word_append, add_token_append]
    rfl
  | case8 c s head buf h1 h2 h3 h4 hlt ih =>
    have hc : plain c := ⟨fun e => h1 (Or.inl e), fun e => h1 (Or.inr e), h2, h3, h4⟩
    rw [lexLoop_plain_cons c hc, lexLoop_plain_cons c hc, if_pos hlt, if_pos hlt]
    exact ih
  | case9 c s head buf h1 h2 h3 h4 hlt =>
    have hc : plain c := ⟨fun e => h1 (Or.inl e), fun e => h1 (Or.inr e), h2, h3, h4⟩
    rw [lexLoop_plain_cons c hc, lexLoop_plain_cons c hc, if_neg hlt, if_neg hlt]
    rfl

theorem lexLoop_skip_blanks (ws : CStr) (hws : ∀ c ∈ ws, c = ' ' ∨ c = '\t') (s : CStr)
    (head : List token) : lexLoop (ws ++ s) head [] = lexLoop s head [] := by
  induction ws with
  | nil => rfl
  | cons c ws ih =>
    rw [List.cons_append, lexLoop_blank c (hws c (List.mem_cons_self c ws)), flush_word_nil]
    exact ih (fun d hd => hws d (List.mem_cons_of_mem c hd))

/-- A blank after an input the loop finishes on hands the finished tokens
over to the rest, with an empty buffer. -/
theorem lexLoop_then_blank (s1 : CStr) (head : List token) (buf : CStr) (t1 : List token)
    (h : lexLoop s1 head buf = some t1) (b : Char) (hb : b = ' ' ∨ b = '\t') (rest : CStr) :
    lexLoop (s1 ++ b :: rest) head buf = lexLoop rest t1 [] := by
  have hbgt : b ≠ '>' := by rcases hb with rfl | rfl <;> decide
  induction s1, head, buf using lexLoop.induct generalizing t1 with
  | case1 head buf =>
    rw [lexLoop_nil] at h
    simp only [Option.some.injEq] at h
    subst h
    rw [List.nil_append, lexLoop_blank b hb]
  | case2 c s head buf hc ih =>
    rw [lexLoop_blank c hc] at h
    rw [List.cons_append, lexLoop_blank c hc]
    exact ih t1 h
  | case3 s head buf _ ih =>
    rw [lexLoop_pipe] at h
    rw [List.cons_append, lexLoop_pipe]
    exact ih t1 h
  | case4 s head buf _ _ ih =>
    rw [lexLoop_lt] at h
    rw [List.cons_append, lexLoop_lt]
    exact ih t1 h
  | case5 head buf s _ _ _ ih =>
    rw [lexLoop_gt_gt] at h
    rw [List.cons_append, List.cons_append, lexLoop_gt_gt]
    exact ih t1 h
  | case6 head buf d s hd _ _ _ ih =>
    rw [lexLoop_gt_other d hd] at h
    rw [List.cons_append, List.cons_append, lexLoop_gt_other d hd]
    exact ih t1 h
  | case7 head buf _ _ _ _ =>
    rw [lexLoop_gt_end] at h
    simp only [Option.some.injEq] at h
    subst h
    rw [List.cons_append, List.nil_append, lexLoop_gt_other b hbgt, lexLoop_blank b hb,
      flush_word_nil]
  | case8 c s head buf h1 h2 h3 h4 hlt ih =>
    have hc : plain c := ⟨fun e => h1 (Or.inl e), fun e => h1 (Or.inr e), h2, h3, h4⟩
    rw [lexLoop_plain_cons c hc, if_pos hlt] at h
    rw [List.cons_append, lexLoop_plain_cons c hc, if_pos hlt]
    exact ih t1 h
  | case9 c s head buf h1 h2 h3 h4 hlt =>
    have hc : plain c := ⟨fun e => h1 (Or.inl e), fun e => h1 (Or.inr e), h2, h3, h4⟩
    rw [lexLoop_plain_cons c hc, if_neg hlt] at h
    exact absurd h (by simp)

/-- C20: when `lex` returns `t1` on `s1` and `t2` on `s2`, it returns `t1`
followed by `t2` on `s1`, a non-empty run of spaces and tabs, and `s2`; in
particular with one space or one tab in between. -/
theorem lex_append_over_blanks (s1 s2 ws : CStr) (t1 t2 : List token)
    (h1 : lex s1 = some t1) (h2 : lex s2 = some t2) (hne : ws ≠ [])
    (hws : ∀ c ∈ ws, c = ' ' ∨ c = '\t') :
    lex (s1 ++ ws ++ s2) = some (t1 ++ t2)
      ∧ lex (s1 ++ [' '] ++ s2) = some (t1 ++ t2)
      ∧ lex (s1 ++ ['\t'] ++ s2) = some (t1 ++ t2) := by
  have key : ∀ r : CStr, r ≠ [] → (∀ c ∈ r, c = ' ' ∨ c = '\t') →
      lex (s1 ++ r ++ s2) = some (t1 ++ t2) := by
    intro r hr hrb
    obtain ⟨b, r', rfl⟩ := List.exists_cons_of_ne_nil hr
    unfold lex at h1 h2 ⊢
    rw [List.append_assoc, List.cons_append,
      lexLoop_then_blank s1 [] [] t1 h1 b (hrb b (List.mem_cons_self b r')),
      lexLoop_skip_blanks r' (fun d hd => hrb d (List.mem_cons_of_mem b hd))]
    have := lexLoop_append_head s2 t1 [] []
    rw [List.append_nil] at this
    rw [this, h2]
    rfl
  exact ⟨key ws hne hws, key [' '] (by simp) (by simp), key ['\t'] (by simp) (by simp)⟩

theorem lex_append_over_blanks_witness :
    lex "a>".toList = some [⟨['a'], TOK_WORD⟩, ⟨['>'], TOK_REDIR_OUT⟩]
      ∧ lex ">b".toList = some [⟨['>'], TOK_REDIR_OUT⟩, ⟨['b'], TOK_WORD⟩]
      ∧ lex ("a>".toList ++ [' ', '\t'] ++ ">b".toList)
          = some ([⟨['a'], TOK_WORD⟩, ⟨['>'], TOK_REDIR_OUT⟩]
              ++ [⟨['>'], TOK_REDIR_OUT⟩, ⟨['b'], TOK_WORD⟩]) :=
  ⟨by rfl, by rfl,
    (lex_append_over_blanks "a>".toList ">b".toList [' ', '\t'] _ _ (by rfl) (by rfl)
      (by simp) (by decide)).1⟩

/-! ## echo without arguments, cd to a missing directory -/

/-- C11: for the stage whose arguments are exactly `echo`, the loop of the
`echo` builtin runs no iteration: `builtin` reports handled and prints
nothing, so the standard output is unchanged and no newline is written. -/
theorem echo_alone_prints_nothing (env : Env) (sh : Shell) :
    builtin env { argv := ["echo".toList], in_file := none, out_file := none, append := false }
        sh = (dispatch.handled, { sh with out := sh.out ++ [] })
      ∧ (builtin env
          { argv := ["echo".toList], in_file := none, out_file := none, append := false }
          sh).2.out = sh.out
      ∧ (builtin Env.sample
          { argv := ["echo".toList], in_file := none, out_file := none, append := false }
          Shell.start).2.out ≠ ['\n'] := by
  refine ⟨by rfl, ?_, by decide⟩
  show sh.out ++ [] = sh.out
  simp

/-- C14 fails as stated: `cd /nonexistent`, which fails, is handled and
leaves the working directory alone, but nothing is written on either
stream. -/
theorem cd_failure_is_silent :
    Env.sample.chdir_to Shell.start.cwd "/nonexistent".toList = none
      ∧ builtin Env.sample
          { argv := ["cd".toList, "/nonexistent".toList], in_file := none, out_file := none,
            append := false } Shell.start
        = (dispatch.handled,
            { Shell.start with calls := [Call.chdir (some "/nonexistent".toList)] })
      ∧ (builtin Env.sample
          { argv := ["cd".toList, "/nonexistent".toList], in_file := none, out_file := none,
            append := false } Shell.start).2.err = []
      ∧ (builtin Env.sample
          { argv := ["cd".toList, "/nonexistent".toList], in_file := none, out_file := none,
            append := false } Shell.start).2.out = [] := by
  refine ⟨by decide, by decide, by decide, by decide⟩

/-- C14, as the code has it: for a stage `cd p ...` where changing directory
to `p` fails, `builtin` calls `chdir(p)`, ignores its result and reports
handled: the working directory is unchanged, nothing is written on the
standard output or the standard error, and the interpreter does not exit. -/
theorem cd_failure_unreported (env : Env) (c : command) (sh : Shell) (p : CStr)
    (rest : List CStr) (h : c.argv = "cd".toList :: p :: rest)
    (hfail : env.chdir_to sh.cwd p = none) :
    builtin env c sh
        = (dispatch.handled, { sh with calls := sh.calls ++ [Call.chdir (some p)] })
      ∧ (builtin env c sh).2.cwd = sh.cwd
      ∧ (builtin env c sh).2.out = sh.out
      ∧ (builtin env c sh).2.err = sh.err
      ∧ (builtin env c sh).2.exited = sh.exited := by
  have hb : builtin env c sh
      = (dispatch.handled, { sh with calls := sh.calls ++ [Call.chdir (some p)] }) := by
    simp only [builtin, h]
    rw [if_neg (by decide), if_pos trivial]
    simp [sys_chdir, hfail]
  rw [hb]
  exact ⟨rfl, rfl, rfl, rfl, rfl⟩

theorem cd_failure_unreported_witness :
    ({ argv := ["cd".toList, "/nonexistent".toList], in_file := none, out_file := none,
       append := false } : command).argv = "cd".toList :: "/nonexistent".toList :: []
      ∧ Env.sample.chdir_to Shell.start.cwd "/nonexistent".toList = none
      ∧ (builtin Env.sample
          { argv := ["cd".toList, "/nonexistent".toList], in_file := none, out_file := none,
            append := false } Shell.start).2.err = Shell.start.err :=
  ⟨rfl, by decide,
    (cd_failure_unreported Env.sample
      { argv := ["cd".toList, "/nonexistent".toList], in_file := none, out_file := none,
        append := false } Shell.start "/nonexistent".toList [] rfl (by decide)).2.2.2.1⟩

/-! ## Parser: capacity of the argument array, trailing redirection operators -/

theorem parseLoop_word_full (t : token) (ht : t.type = TOK_WORD) (ts : List token)
    (done : List command) (cur : command) (h : ¬ cur.argv.length < ARGV_SLOTS) :
    parseLoop (t :: ts) done cur = .error parse_fault.argv_bounds := by
  rw [parseLoop.eq_def]; simp [ht, h]

theorem parseLoop_nil_full (done : List command) (cur : command)
    (h : ¬ cur.argv.length < ARGV_SLOTS) :
    parseLoop [] done cur = .error parse_fault.argv_bounds := by
  rw [parseLoop.eq_def]; simp [h]

/-- On 64 words or more and nothing else, `parse` writes outside the
argument array. -/
theorem parse_words_overflow (ws : List token) (hws : ∀ t ∈ ws, t.type = TOK_WORD)
    (hlen : 64 ≤ ws.length) : parse ws = .error parse_fault.argv_bounds := by
  have hsplit : ws = ws.take 64 ++ ws.drop 64 := (List.take_append_drop 64 ws).symm
  have htake : (ws.take 64).length = 64 := by simp [List.length_take]; omega
  unfold parse
  rw [hsplit, parseLoop_words (ws.take 64) (fun t ht => hws t (List.mem_of_mem_take ht)) _ _ _
    (by rw [htake]; simp [new_command, ARGV_SLOTS])]
  have hfull : ¬ ({ new_command with
      argv := new_command.argv ++ (ws.take 64).map token.value } : command).argv.length
        < ARGV_SLOTS := by
    simp [new_command, ARGV_SLOTS, hlen]
  cases hd : ws.drop 64 with
  | nil => exact parseLoop_nil_full _ _ hfull
  | cons t r =>
    have ht : t.type = TOK_WORD :=
      hws t (List.mem_of_mem_drop (by rw [hd]; exact List.mem_cons_self t r))
    exact parseLoop_word_full t ht r _ _ hfull

theorem lexLoop_letter_blank (n : Nat) (head : List token) :
    lexLoop (List.replicate n ['a', ' ']).flatten head []
      = some (head ++ List.replicate n ⟨['a'], TOK_WORD⟩) := by
  induction n generalizing head with
  | zero => simp [lexLoop_nil, flush_word_nil]
  | succ n ih =>
    rw [List.replicate_succ, List.flatten_cons]
    show lexLoop ('a' :: ' ' :: (List.replicate n ['a', ' ']).flatten) head [] = _
    rw [lexLoop_plain_cons 'a' (by decide), if_pos (by simp [BUF_SIZE]),
      lexLoop_blank ' ' (Or.inl rfl), ih]
    simp [flush_word, add_token, List.replicate_succ]

/-- C18: a line of 64 one-letter words lexes to 64 word tokens, on which
`parse` stores 64 arguments at indices 0 to 63 and then writes the
terminating null entry at index 64, outside the 64 slots; with 65 words the
65th argument is the write at index 64.  With 63 words every write is below
64 and a chain is returned. -/
theorem parse_writes_past_argv :
    lex (List.replicate 64 ['a', ' ']).flatten
        = some (List.replicate 64 ⟨['a'], TOK_WORD⟩)
      ∧ parse (List.replicate 64 ⟨['a'], TOK_WORD⟩) = .error parse_fault.argv_bounds
      ∧ parse (List.replicate 65 ⟨['a'], TOK_WORD⟩) = .error parse_fault.argv_bounds
      ∧ parse (List.replicate 63 ⟨['a'], TOK_WORD⟩)
          = .ok [{ argv := List.replicate 63 ['a'], in_file := none, out_file := none,
                   append := false }] := by
  have hw : ∀ n, ∀ t ∈ List.replicate n (⟨['a'], TOK_WORD⟩ : token), t.type = TOK_WORD := by
    intro n t ht
    rw [List.eq_of_mem_replicate ht]
  refine ⟨?_, parse_words_overflow _ (hw 64) (by simp), parse_words_overflow _ (hw 65) (by simp),
    ?_⟩
  · have := lexLoop_letter_blank 64 []
    simpa [lex] using this
  · have := parseLoop_words (List.replicate 63 ⟨['a'], TOK_WORD⟩) (hw 63) [] [] new_command
      (by simp [new_command, ARGV_SLOTS])
    rw [List.append_nil] at this
    unfold parse
    rw [this, parseLoop_nil _ _ (by simp [new_command, ARGV_SLOTS])]
    simp [new_command]

theorem stage_args_nil : stage_args [] = [[]] := by
  rw [stage_args.eq_def]

theorem stage_args_word (t : token) (ht : t.type = TOK_WORD) (ts : List token) :
    stage_args (t :: ts) = (stage_args ts).modifyHead (List.cons t.value) := by
  rw [stage_args.eq_def]; simp [ht]

theorem stage_args_pipe (t : token) (ht : t.type = TOK_PIPE) (ts : List token) :
    stage_args (t :: ts) = [] :: stage_args ts := by
  rw [stage_args.eq_def]; simp [ht]

theorem stage_args_redirect (t : token) (h1 : t.type ≠ TOK_WORD) (h2 : t.type ≠ TOK_PIPE)
    (x : token) (ts : List token) : stage_args (t :: x :: ts) = stage_args ts := by
  rw [stage_args.eq_def]; simp [h1, h2]

theorem dangling_pass (t : token) (ht : t.type = TOK_WORD ∨ t.type = TOK_PIPE)
    (ts : List token) : dangling (t :: ts) = dangling ts := by
  rw [dangling.eq_def]; simp [ht]

theorem dangling_last (t : token) (h1 : t.type ≠ TOK_WORD) (h2 : t.type ≠ TOK_PIPE) :
    dangling [t] = true := by
  rw [dangling.eq_def]; simp [h1, h2]

theorem dangling_redirect (t : token) (h1 : t.type ≠ TOK_WORD) (h2 : t.type ≠ TOK_PIPE)
    (x : token) (ts : List token) : dangling (t :: x :: ts) = dangling ts := by
  rw [dangling.eq_def]; simp [h1, h2]

theorem stage_args_ne_nil (ts : List token) : stage_args ts ≠ [] := by
  induction ts using stage_args.induct with
  | case1 => simp [stage_args_nil]
  | case2 t ts ht ih =>
    rw [stage_args_word t ht]
    cases h : stage_args ts with
    | nil => exact absurd h ih
    | cons a r => simp
  | case3 t ts h1 h2 ih => rw [stage_args_pipe t h2]; simp
  | case4 t h1 h2 => rw [stage_args.eq_def]; simp [h1, h2]
  | case5 t h1 h2 x ts ih => rw [stage_args_redirect t h1 h2]; exact ih

theorem parseLoop_pipe_full (t : token) (ht : t.type = TOK_PIPE) (ts : List token)
    (done : List command) (cur : command) (h : ¬ cur.argv.length < ARGV_SLOTS) :
    parseLoop (t :: ts) done cur = .error parse_fault.argv_bounds := by
  rw [parseLoop.eq_def]; simp [ht, h]

theorem parseLoop_redir_out (t : token)
    (ht : t.type = TOK_REDIR_OUT ∨ t.type = TOK_REDIR_APPEND) (x : token)
    (ts : List token) (done : List command) (cur : command) :
    parseLoop (t :: x :: ts) done cur
      = parseLoop ts done
          { cur with out_file := some x.value,
                     append := decide (x.type = TOK_REDIR_APPEND) } := by
  rw [parseLoop.eq_def]
  rcases ht with ht | ht <;> simp [ht]

theorem parseLoop_redirect_last (t : token) (h1 : t.type ≠ TOK_WORD) (h2 : t.type ≠ TOK_PIPE)
    (done : List command) (cur : command) :
    parseLoop [t] done cur = .error parse_fault.null_token := by
  rw [parseLoop.eq_def]
  cases ht : t.type <;> simp_all

/-- When no stage has more than 63 arguments, the loop fails on the absent
token exactly when the walk ends on a redirection operator, and otherwise
returns stages with the argument lists of `stage_args`. -/
theorem parseLoop_stage_args (ts : List token) (done : List command) (cur : command)
    (h : ∀ a ∈ (stage_args ts).modifyHead (fun a => cur.argv ++ a), a.length ≤ 63) :
    (dangling ts = true → parseLoop ts done cur = .error parse_fault.null_token)
      ∧ (dangling ts = false → ∃ chain, parseLoop ts done cur = .ok (done ++ chain)
          ∧ chain.map command.argv
              = (stage_args ts).modifyHead (fun a => cur.argv ++ a)) := by
  induction ts, done, cur using parseLoop.induct with
  | case1 done cur hroom =>
    refine ⟨fun hd => by simp [dangling] at hd, fun _ => ⟨[cur], parseLoop_nil _ _ hroom, ?_⟩⟩
    simp [stage_args_nil]
  | case2 done cur hroom =>
    have := h (cur.argv ++ []) (by simp [stage_args_nil])
    simp [ARGV_SLOTS] at hroom this
    omega
  | case3 t ts done cur ht hroom ih =>
    obtain ⟨a, r, har⟩ := List.exists_cons_of_ne_nil (stage_args_ne_nil ts)
    rw [stage_args_word t ht, har] at h ⊢
    have ih := ih (by rw [har]; simpa using h)
    rw [har] at ih
    rw [dangling_pass t (Or.inl ht), parseLoop_word t ht _ _ _ hroom]
    simpa using ih
  | case4 t ts done cur ht hroom =>
    obtain ⟨a, r, har⟩ := List.exists_cons_of_ne_nil (stage_args_ne_nil ts)
    rw [stage_args_word t ht, har] at h
    have := h (cur.argv ++ t.value :: a) (by simp)
    simp [ARGV_SLOTS] at hroom this
    omega
  | case5 t ts done cur hnw hp hroom ih =>
    rw [stage_args_pipe t hp] at h ⊢
    have hrest : ∀ a ∈ (stage_args ts).modifyHead (fun a => new_command.argv ++ a),
        a.length ≤ 63 := by
      intro a ha
      have hid : (stage_args ts).modifyHead (fun a => new_command.argv ++ a)
          = stage_args ts := by
        cases stage_args ts <;> simp [new_command]
      rw [hid] at ha
      exact h a (by simp [ha])
    have ih := ih hrest
    have hid : (stage_args ts).modifyHead (fun a => new_command.argv ++ a)
        = stage_args ts := by
      cases stage_args ts <;> simp [new_command]
    rw [hid] at ih
    rw [dangling_pass t (Or.inr hp), parseLoop_pipe t hp _ _ _ hroom]
    refine ⟨ih.1, fun hd => ?_⟩
    obtain ⟨chain, hc, hargs⟩ := ih.2 hd
    exact ⟨cur :: chain, by rw [hc]; simp, by simp [hargs]⟩
  | case6 t ts done cur hnw hp hroom =>
    rw [stage_args_pipe t hp] at h
    have := h (cur.argv ++ []) (by simp)
    simp [ARGV_SLOTS] at hroom this
    omega
  | case7 t done cur hnw hnp hin =>
    rw [dangling_last t hnw hnp]
    exact ⟨fun _ => parseLoop_redirect_last t hnw hnp _ _, fun hd => by simp at hd⟩
  | case8 t done cur hnw hnp hin x ts ih =>
    rw [stage_args_redirect t hnw hnp] at h ⊢
    rw [dangling_redirect t hnw hnp, parseLoop_redir_in t hin]
    exact ih h
  | case9 t done cur hnw hnp hnin hout =>
    rw [dangling_last t hnw hnp]
    exact ⟨fun _ => parseLoop_redirect_last t hnw hnp _ _, fun hd => by simp at hd⟩
  | case10 t done cur hnw hnp hnin hout x ts ih =>
    rw [stage_args_redirect t hnw hnp] at h ⊢
    rw [dangling_redirect t hnw hnp, parseLoop_redir_out t hout]
    exact ih h
  | case11 t ts done cur hnw hnp hnin hnout ih =>
    exfalso
    cases ht : t.type <;> simp_all

/-- A walk that ends on a redirection operator ends on the last token. -/
theorem dangling_getLast (ts : List token) (h : dangling ts = true) :
    ∃ t, ts.getLast? = some t
      ∧ (t.type = TOK_REDIR_IN ∨ t.type = TOK_REDIR_OUT ∨ t.type = TOK_REDIR_APPEND) := by
  induction ts using dangling.induct with
  | case1 => simp [dangling] at h
  | case2 t ts ht ih =>
    rw [dangling_pass t ht] at h
    obtain ⟨u, hu, hty⟩ := ih h
    refine ⟨u, ?_, hty⟩
    cases ts with
    | nil => simp at hu
    | cons a r => simpa [List.getLast?_cons_cons] using hu
  | case3 t ht =>
    refine ⟨t, by simp, ?_⟩
    cases hty : t.type <;> simp_all
  | case4 t ht x ts ih =>
    have h1 : t.type ≠ TOK_WORD := fun e => ht (Or.inl e)
    have h2 : t.type ≠ TOK_PIPE := fun e => ht (Or.inr e)
    rw [dangling_redirect t h1 h2] at h
    obtain ⟨u, hu, hty⟩ := ih h
    refine ⟨u, ?_, hty⟩
    cases ts with
    | nil => simp at hu
    | cons a r => simpa [List.getLast?_cons_cons] using hu

/-- C17 fails as stated: the tokens of `a < <` end with a `TOK_REDIR_IN`
token, yet `parse` returns a chain: that token is read as the path of the
operator before it. -/
theorem parse_trailing_operator_as_path :
    lex "a < <".toList
        = some [⟨['a'], TOK_WORD⟩, ⟨['<'], TOK_REDIR_IN⟩, ⟨['<'], TOK_REDIR_IN⟩]
      ∧ [(⟨['a'], TOK_WORD⟩ : token), ⟨['<'], TOK_REDIR_IN⟩, ⟨['<'], TOK_REDIR_IN⟩].getLast?
          = some ⟨['<'], TOK_REDIR_IN⟩
      ∧ parse [⟨['a'], TOK_WORD⟩, ⟨['<'], TOK_REDIR_IN⟩, ⟨['<'], TOK_REDIR_IN⟩]
          = .ok [{ argv := [['a']], in_file := some ['<'], out_file := none,
                   append := false }] := by
  refine ⟨by rfl, by rfl, by rfl⟩

/-- C17, as the code has it: on a token sequence whose stages have at most
63 arguments, `parse` fails on the absent next token when its walk ends on a
redirection operator, that is a last token of redirection type that is not
itself read as the path of the operator before it; and it returns a chain,
with the argument lists of the stages, when the walk does not end so, in
particular when the last token is not a redirection operator (each
redirection operator is followed by a token). -/
theorem parse_trailing_redirect (ts : List token)
    (hargs : ∀ a ∈ stage_args ts, a.length ≤ 63) :
    (dangling ts = true → parse ts = .error parse_fault.null_token)
      ∧ (dangling ts = true → ∃ t, ts.getLast? = some t
          ∧ (t.type = TOK_REDIR_IN ∨ t.type = TOK_REDIR_OUT ∨ t.type = TOK_REDIR_APPEND))
      ∧ (dangling ts = false →
          ∃ chain, parse ts = .ok chain ∧ chain.map command.argv = stage_args ts)
      ∧ ((∀ t, ts.getLast? = some t →
            ¬ (t.type = TOK_REDIR_IN ∨ t.type = TOK_REDIR_OUT ∨ t.type = TOK_REDIR_APPEND)) →
          ∃ chain, parse ts = .ok chain ∧ chain.map command.argv = stage_args ts) := by
  have hid : (stage_args ts).modifyHead (fun a => new_command.argv ++ a) = stage_args ts := by
    cases stage_args ts <;> simp [new_command]
  have key := parseLoop_stage_args ts [] new_command (by rw [hid]; exact hargs)
  rw [hid] at key
  have hok : dangling ts = false →
      ∃ chain, parse ts = .ok chain ∧ chain.map command.argv = stage_args ts := by
    intro hd
    obtain ⟨chain, hc, ha⟩ := key.2 hd
    exact ⟨chain, by simpa [parse] using hc, ha⟩
  refine ⟨key.1, dangling_getLast ts, hok, fun hlast => hok ?_⟩
  cases hd : dangling ts with
  | false => rfl
  | true =>
    obtain ⟨t, ht, hty⟩ := dangling_getLast ts hd
    exact absurd hty (hlast t ht)

theorem parse_trailing_redirect_witness :
    (∀ a ∈ stage_args [⟨['a'], TOK_WORD⟩, ⟨['>'], TOK_REDIR_OUT⟩], a.length ≤ 63)
      ∧ dangling [⟨['a'], TOK_WORD⟩, ⟨['>'], TOK_REDIR_OUT⟩] = true
      ∧ parse [⟨['a'], TOK_WORD⟩, ⟨['>'], TOK_REDIR_OUT⟩] = .error parse_fault.null_token :=
  ⟨by decide, by decide,
    (parse_trailing_redirect [⟨['a'], TOK_WORD⟩, ⟨['>'], TOK_REDIR_OUT⟩] (by decide)).1
      (by decide)⟩

/-! ## Descriptor tables -/

theorem fd_scan_spec (t : FdTable) (fuel n : Nat) :
    n ≤ fd_scan t fuel n ∧ fd_scan t fuel n ≤ n + fuel
      ∧ (∀ m, n ≤ m → m < fd_scan t fuel n → (t.lookup m).isSome)
      ∧ (fd_scan t fuel n < n + fuel → t.lookup (fd_scan t fuel n) = none) := by
  induction fuel generalizing n with
  | zero =>
    refine ⟨by simp [fd_scan], by simp [fd_scan], fun m hm hlt => ?_, fun hlt => ?_⟩
    · simp only [fd_scan] at hlt; omega
    · simp only [fd_scan] at hlt; omega
  | succ fuel ih =>
    by_cases h : (t.lookup n).isSome
    · have hs : fd_scan t (fuel + 1) n = fd_scan t fuel (n + 1) := by simp [fd_scan, h]
      rw [hs]
      obtain ⟨h1, h2, h3, h4⟩ := ih (n + 1)
      refine ⟨by omega, by omega, ?_, fun hlt => h4 (by omega)⟩
      intro m hm hlt
      by_cases hmn : m = n
      · rw [hmn]; exact h
      · exact h3 m (by omega) hlt
    · have hs : fd_scan t (fuel + 1) n = n := by simp [fd_scan, h]
      rw [hs]
      refine ⟨le_refl n, by omega, fun m hm hlt => by omega, fun _ => ?_⟩
      cases hl : t.lookup n with
      | none => rfl
      | some d => simp [hl] at h

/-- The descriptor handed out is not open. -/
theorem fd_lowest_free_none (t : FdTable) : t.lookup (fd_lowest_free t) = none := by
  obtain ⟨_, h2, h3, h4⟩ := fd_scan_spec t t.length 0
  by_cases hlt : fd_scan t t.length 0 < 0 + t.length
  · exact h4 hlt
  · have hr : fd_lowest_free t = t.length := by unfold fd_lowest_free; omega
    rw [hr]
    cases hl : t.lookup t.length with
    | none => rfl
    | some d =>
      exfalso
      have hopen : ∀ m, m ≤ t.length → (t.lookup m).isSome := by
        intro m hm
        by_cases hmn : m = t.length
        · rw [hmn, hl]; rfl
        · exact h3 m (Nat.zero_le m) (by unfold fd_lowest_free at hr; omega)
      have hsub : Finset.range (t.length + 1) ⊆ (t.map Prod.fst).toFinset := by
        intro m hm
        rw [Finset.mem_range] at hm
        have := hopen m (by omega)
        rw [List.lookup_isSome_iff] at this
        obtain ⟨e, he, hme⟩ := this
        rw [List.mem_toFinset, List.mem_map]
        exact ⟨e, he, by simpa using (beq_iff_eq.mp hme).symm⟩
      have h1 := Finset.card_le_card hsub
      have h2 := List.toFinset_card_le (t.map Prod.fst)
      rw [Finset.card_range] at h1
      rw [List.length_map] at h2
      omega

theorem lookup_filter_ne (t : FdTable) (fd n : Nat) (h : n ≠ fd) :
    (t.filter (fun e => decide (e.1 ≠ fd))).lookup n = t.lookup n := by
  induction t with
  | nil => rfl
  | cons e t ih =>
    obtain ⟨k, d⟩ := e
    by_cases hk : k = fd
    · subst hk
      rw [List.filter_cons_of_neg (by simp), ih, List.lookup_cons]
      have : (n == k) = false := by simpa using h
      rw [this]
    · rw [List.filter_cons_of_pos (by simpa using hk), List.lookup_cons, List.lookup_cons, ih]

theorem lookup_filter_self (t : FdTable) (fd : Nat) :
    (t.filter (fun e => decide (e.1 ≠ fd))).lookup fd = none := by
  rw [List.lookup_eq_none_iff]
  intro e he
  have := (List.mem_filter.mp he).2
  simp only [ne_eq, decide_not, Bool.not_eq_true', decide_eq_false_iff_not] at this
  simpa using fun h => this h.symm

theorem filter_of_lookup_none (t : FdTable) (fd : Nat) (h : t.lookup fd = none) :
    t.filter (fun e => decide (e.1 ≠ fd)) = t := by
  rw [List.filter_eq_self]
  intro e he
  rw [List.lookup_eq_none_iff] at h
  have := h e he
  simp only [bne_iff_ne, ne_eq] at this
  simpa using fun h' => this h'.symm

theorem lookup_fd_set_self (t : FdTable) (fd : Nat) (d : Desc) :
    (fd_set t fd d).lookup fd = some d := by
  simp [fd_set]

theorem lookup_fd_set_ne (t : FdTable) (fd n : Nat) (d : Desc) (h : n ≠ fd) :
    (fd_set t fd d).lookup n = t.lookup n := by
  unfold fd_set
  rw [List.lookup_cons]
  have : (n == fd) = false := by simpa using h
  rw [this]
  exact lookup_filter_ne t fd n h

theorem lookup_fd_close_ne (t : FdTable) (fd n : Nat) (h : n ≠ fd) :
    (fd_close t fd).lookup n = t.lookup n :=
  lookup_filter_ne t fd n h

theorem fd_set_of_free (t : FdTable) (fd : Nat) (d : Desc) (h : t.lookup fd = none) :
    fd_set t fd d = (fd, d) :: t := by
  unfold fd_set
  rw [filter_of_lookup_none t fd h]

/-! ## Executor: one stage -/

theorem sys_chdir_frame (env : Env) (sh : Shell) (path : Option CStr) :
    (sys_chdir env sh path).fds = sh.fds ∧ (sys_chdir env sh path).pipes = sh.pipes
      ∧ (sys_chdir env sh path).procs = sh.procs ∧ (sys_chdir env sh path).err = sh.err := by
  unfold sys_chdir
  cases path with
  | none => exact ⟨rfl, rfl, rfl, rfl⟩
  | some p =>
    dsimp only
    cases env.chdir_to sh.cwd p <;> exact ⟨rfl, rfl, rfl, rfl⟩

theorem builtin_frame (env : Env) (c : command) (sh : Shell) :
    (builtin env c sh).2.fds = sh.fds ∧ (builtin env c sh).2.pipes = sh.pipes
      ∧ (builtin env c sh).2.procs = sh.procs ∧ (builtin env c sh).2.err = sh.err := by
  unfold builtin
  split
  · exact ⟨rfl, rfl, rfl, rfl⟩
  · split_ifs
    · exact ⟨rfl, rfl, rfl, rfl⟩
    · exact sys_chdir_frame env sh _
    · exact ⟨rfl, rfl, rfl, rfl⟩
    · exact ⟨rfl, rfl, rfl, rfl⟩
    · exact ⟨rfl, rfl, rfl, rfl⟩
    · exact ⟨rfl, rfl, rfl, rfl⟩

/-- The outcome of `builtin` depends on the stage alone. -/
theorem builtin_fst_indep (env env' : Env) (c : command) (sh sh' : Shell) :
    (builtin env c sh).1 = (builtin env' c sh').1 := by
  unfold builtin
  split
  · rfl
  · split_ifs <;> rfl

theorem builtin_exit_iff (env : Env) (c : command) (sh : Shell) :
    (∃ n, (builtin env c sh).1 = dispatch.exited n) ↔ c.argv.head? = some "exit".toList := by
  unfold builtin
  split
  · rename_i h
    simp [h]
  · rename_i a0 args h
    split_ifs with h1 <;> simp_all

theorem execLoop_nil (env : Env) (fd_in : Nat) (sh : Shell) :
    execLoop env [] fd_in sh = sh := by
  rw [execLoop]

theorem execLoop_handled (env : Env) (c : command) (cs : List command) (fd_in : Nat)
    (sh : Shell) (h : (builtin env c (sys_pipe sh).2.2).1 = dispatch.handled) :
    execLoop env (c :: cs) fd_in sh
      = execLoop env cs (sys_pipe sh).1
          (sys_close (sys_wait (builtin env c (sys_pipe sh).2.2).2) (sys_pipe sh).2.1) := by
  rw [execLoop]
  rcases hb : builtin env c (sys_pipe sh).2.2 with ⟨r, sh2⟩
  rw [hb] at h
  simp only at h
  subst h
  simp only [hb]

theorem execLoop_external (env : Env) (c : command) (cs : List command) (fd_in : Nat)
    (sh : Shell) (h : (builtin env c (sys_pipe sh).2.2).1 = dispatch.not_handled) :
    execLoop env (c :: cs) fd_in sh
      = execLoop env cs (sys_pipe sh).1
          (sys_close (sys_wait (sys_fork env c (!cs.isEmpty) fd_in (sys_pipe sh).1
            (sys_pipe sh).2.1 (builtin env c (sys_pipe sh).2.2).2)) (sys_pipe sh).2.1) := by
  rw [execLoop]
  rcases hb : builtin env c (sys_pipe sh).2.2 with ⟨r, sh2⟩
  rw [hb] at h
  simp only at h
  subst h
  simp only [hb]

theorem execLoop_exited (env : Env) (c : command) (cs : List command) (fd_in : Nat)
    (sh : Shell) (n : Nat) (h : (builtin env c (sys_pipe sh).2.2).1 = dispatch.exited n) :
    execLoop env (c :: cs) fd_in sh = (builtin env c (sys_pipe sh).2.2).2 := by
  rw [execLoop]
  rcases hb : builtin env c (sys_pipe sh).2.2 with ⟨r, sh2⟩
  rw [hb] at h
  simp only at h
  subst h
  simp only [hb]

/-- What `pipe` does to the table: both ends are new descriptors, distinct
from each other and from every open one. -/
theorem sys_pipe_fds (sh : Shell) :
    (sys_pipe sh).2.2.fds
        = ((sys_pipe sh).2.1, Desc.pipe_write sh.pipes)
            :: ((sys_pipe sh).1, Desc.pipe_read sh.pipes) :: sh.fds
      ∧ sh.fds.lookup (sys_pipe sh).1 = none
      ∧ sh.fds.lookup (sys_pipe sh).2.1 = none
      ∧ (sys_pipe sh).2.1 ≠ (sys_pipe sh).1
      ∧ (sys_pipe sh).2.2.pipes = sh.pipes + 1
      ∧ (sys_pipe sh).2.2.procs = sh.procs := by
  have hrd : sh.fds.lookup (fd_lowest_free sh.fds) = none := fd_lowest_free_none sh.fds
  have hset : fd_set sh.fds (fd_lowest_free sh.fds) (Desc.pipe_read sh.pipes)
      = (fd_lowest_free sh.fds, Desc.pipe_read sh.pipes) :: sh.fds :=
    fd_set_of_free _ _ _ hrd
  have hwr := fd_lowest_free_none
    (fd_set sh.fds (fd_lowest_free sh.fds) (Desc.pipe_read sh.pipes))
  have hne : fd_lowest_free (fd_set sh.fds (fd_lowest_free sh.fds) (Desc.pipe_read sh.pipes))
      ≠ fd_lowest_free sh.fds := by
    intro he
    rw [he, lookup_fd_set_self] at hwr
    exact absurd hwr (by simp)
  have hwr' : sh.fds.lookup
      (fd_lowest_free (fd_set sh.fds (fd_lowest_free sh.fds) (Desc.pipe_read sh.pipes)))
        = none := by
    rw [lookup_fd_set_ne _ _ _ _ hne] at hwr
    exact hwr
  refine ⟨?_, hrd, hwr', hne, rfl, rfl⟩
  show fd_set (fd_set sh.fds (fd_lowest_free sh.fds) (Desc.pipe_read sh.pipes)) _ _ = _
  rw [fd_set_of_free _ _ _ (fd_lowest_free_none _)]
  exact congrArg (List.cons _) hset

/-- The interpreter's table after a stage that did not exit: the read end of
the stage's pipe has been added, the write end is closed again. -/
theorem stage_fds (sh sh2 : Shell) (h : sh2.fds = (sys_pipe sh).2.2.fds) :
    (sys_close (sys_wait sh2) (sys_pipe sh).2.1).fds
      = ((sys_pipe sh).1, Desc.pipe_read sh.pipes) :: sh.fds := by
  obtain ⟨hf, hrd, hwr, hne, _, _⟩ := sys_pipe_fds sh
  show fd_close sh2.fds (sys_pipe sh).2.1 = _
  rw [h, hf]
  unfold fd_close
  rw [List.filter_cons_of_neg (by simp), List.filter_cons_of_pos (by simpa using hne.symm),
    filter_of_lookup_none _ _ hwr]

/-! ## Executor: whole chains without `exit` -/

/-- A stage that is not `exit` is either handled in-process or forked, and
the loop goes on with the read end of its pipe as `fd_in`. -/
theorem execLoop_step (env : Env) (c : command) (cs : List command) (fd_in : Nat) (sh : Shell)
    (hne : c.argv.head? ≠ some "exit".toList) :
    ((builtin env c (sys_pipe sh).2.2).1 = dispatch.handled
        ∧ execLoop env (c :: cs) fd_in sh
          = execLoop env cs (sys_pipe sh).1
              (sys_close (sys_wait (builtin env c (sys_pipe sh).2.2).2) (sys_pipe sh).2.1))
      ∨ ((builtin env c (sys_pipe sh).2.2).1 = dispatch.not_handled
        ∧ execLoop env (c :: cs) fd_in sh
          = execLoop env cs (sys_pipe sh).1
              (sys_close (sys_wait (sys_fork env c (!cs.isEmpty) fd_in (sys_pipe sh).1
                (sys_pipe sh).2.1 (builtin env c (sys_pipe sh).2.2).2))
                (sys_pipe sh).2.1)) := by
  cases hr : (builtin env c (sys_pipe sh).2.2).1 with
  | handled => exact Or.inl ⟨rfl, execLoop_handled env c cs fd_in sh hr⟩
  | not_handled => exact Or.inr ⟨rfl, execLoop_external env c cs fd_in sh hr⟩
  | exited n => exact absurd ((builtin_exit_iff env c _).mp ⟨n, hr⟩) hne

/-- Descriptors of the interpreter after a chain without `exit`: every one
that was open still is, and the read end of each stage's pipe has been
added. -/
theorem execLoop_fds (env : Env) (cs : List command) (fd_in : Nat) (sh : Shell)
    (hne : ∀ c ∈ cs, c.argv.head? ≠ some "exit".toList) :
    (execLoop env cs fd_in sh).fds.length = sh.fds.length + cs.length
      ∧ sh.fds <:+ (execLoop env cs fd_in sh).fds
      ∧ (execLoop env cs fd_in sh).pipes = sh.pipes + cs.length
      ∧ ∀ i, i < cs.length →
          ∃ fd, (fd, Desc.pipe_read (sh.pipes + i)) ∈ (execLoop env cs fd_in sh).fds := by
  induction cs generalizing fd_in sh with
  | nil =>
    rw [execLoop_nil]
    exact ⟨rfl, List.suffix_refl _, rfl, fun i hi => absurd hi (Nat.not_lt_zero i)⟩
  | cons c cs ih =>
    have hne' : ∀ d ∈ cs, d.argv.head? ≠ some "exit".toList :=
      fun d hd => hne d (List.mem_cons_of_mem c hd)
    have hstep := execLoop_step env c cs fd_in sh (hne c (List.mem_cons_self c cs))
    have hpipe := sys_pipe_fds sh
    have hfr := builtin_frame env c (sys_pipe sh).2.2
    obtain ⟨sh', hs', hfds, hpipes⟩ : ∃ sh', execLoop env (c :: cs) fd_in sh
        = execLoop env cs (sys_pipe sh).1 sh'
        ∧ sh'.fds = ((sys_pipe sh).1, Desc.pipe_read sh.pipes) :: sh.fds
        ∧ sh'.pipes = sh.pipes + 1 := by
      rcases hstep with ⟨_, he⟩ | ⟨_, he⟩
      · exact ⟨_, he, stage_fds sh _ hfr.1, by
          show (builtin env c (sys_pipe sh).2.2).2.pipes = _
          rw [hfr.2.1, hpipe.2.2.2.2.1]⟩
      · exact ⟨_, he, stage_fds sh _ hfr.1, by
          show (builtin env c (sys_pipe sh).2.2).2.pipes = _
          rw [hfr.2.1, hpipe.2.2.2.2.1]⟩
    obtain ⟨h1, h2, h3, h4⟩ := ih (sys_pipe sh).1 sh' hne'
    rw [hs']
    rw [hfds] at h1 h2
    rw [hpipes] at h3 h4
    refine ⟨by rw [h1]; simp only [List.length_cons]; omega,
      (List.suffix_cons _ _).trans h2, by rw [h3]; simp only [List.length_cons]; omega, ?_⟩
    intro i hi
    cases i with
    | zero => exact ⟨(sys_pipe sh).1, h2.subset (List.mem_cons_self _ _)⟩
    | succ i =>
      obtain ⟨fd, hfd⟩ := h4 i (by simp only [List.length_cons] at hi; omega)
      exact ⟨fd, by rw [show sh.pipes + (i + 1) = sh.pipes + 1 + i by omega]; exact hfd⟩

/-- C12: what `execute` does to the open descriptors of the interpreter on a
chain of `N` stages without `exit`: it closes the write end of each pipe but
no read end, so every descriptor open before is still open, the read end of
each of the `N` pipes it created is open too, the last stage's included, and
the number of open descriptors has grown by `N`. -/
theorem execute_leaves_read_ends_open (env : Env) (chain : List command) (sh : Shell)
    (hne : ∀ c ∈ chain, c.argv.head? ≠ some "exit".toList) :
    (execute env chain sh).fds.length = sh.fds.length + chain.length
      ∧ sh.fds <:+ (execute env chain sh).fds
      ∧ (∀ i, i < chain.length →
          ∃ fd, (fd, Desc.pipe_read (sh.pipes + i)) ∈ (execute env chain sh).fds)
      ∧ (execute Env.sample
          [{ argv := ["ls".toList], in_file := none, out_file := none, append := false },
           { argv := ["wc".toList], in_file := none, out_file := none, append := false }]
          Shell.start).fds
        = [(4, Desc.pipe_read 1), (3, Desc.pipe_read 0), (0, Desc.inherited 0),
           (1, Desc.inherited 1), (2, Desc.inherited 2)] := by
  obtain ⟨h1, h2, _, h4⟩ := execLoop_fds env chain 0 sh hne
  exact ⟨h1, h2, h4, by decide⟩

theorem execute_leaves_read_ends_open_witness :
    (∀ c ∈ [({ argv := ["ls".toList], in_file := none, out_file := none,
               append := false } : command)], c.argv.head? ≠ some "exit".toList)
      ∧ (execute Env.sample
          [{ argv := ["ls".toList], in_file := none, out_file := none, append := false }]
          Shell.start).fds.length = Shell.start.fds.length + 1 :=
  ⟨by decide,
    (execute_leaves_read_ends_open Env.sample
      [{ argv := ["ls".toList], in_file := none, out_file := none, append := false }]
      Shell.start (by decide)).1⟩

/-! ## Executor: descriptors of a child -/

theorem lookup_dup2_ne (t : FdTable) (o : Option Nat) (n m : Nat) (h : m ≠ n) :
    (dup2 t o n).lookup m = t.lookup m := by
  unfold dup2
  cases o with
  | none => rfl
  | some k =>
    dsimp only
    cases t.lookup k with
    | none => rfl
    | some d =>
      dsimp only
      split
      · rfl
      · exact lookup_fd_set_ne t n m d h

theorem lookup_dup2_self (t : FdTable) (k n : Nat) (d : Desc) (hk : t.lookup k = some d) :
    (dup2 t (some k) n).lookup n = some d := by
  unfold dup2
  dsimp only
  rw [hk]
  dsimp only
  split
  · rename_i he
    rw [← he]; exact hk
  · exact lookup_fd_set_self t n d

/-- After a successful `open` followed by `dup2(f, n)`, descriptor `n` refers
to the file. -/
theorem lookup_open_dup2_self (t : FdTable) (d : Desc) (n : Nat) :
    (dup2 (fd_set t (fd_lowest_free t) d) (some (fd_lowest_free t)) n).lookup n = some d :=
  lookup_dup2_self _ _ _ d (lookup_fd_set_self t _ d)

/-- After `open` and `dup2(f, n)`, an open descriptor other than `n` is as before. -/
theorem lookup_open_dup2_ne (t : FdTable) (d : Desc) (n m : Nat) (h : m ≠ n)
    (hm : (t.lookup m).isSome) :
    (dup2 (fd_set t (fd_lowest_free t) d) (some (fd_lowest_free t)) n).lookup m
      = t.lookup m := by
  have hf : m ≠ fd_lowest_free t := by
    intro he
    rw [he, fd_lowest_free_none] at hm
    exact absurd hm (by simp)
  rw [lookup_dup2_ne _ _ _ _ h, lookup_fd_set_ne _ _ _ _ hf]

/-- The child's table is that of the two redirections and the final `close`
applied to the table left by the two pipe `dup2` calls. -/
theorem child_fds_split (env : Env) (c : command) (has_next : Bool) (fd_in rd wr : Nat)
    (fds : FdTable) :
    child_fds env c has_next fd_in rd wr fds
      = child_fds env c false 0 rd wr
          (if has_next then dup2 (if fd_in ≠ 0 then dup2 fds (some fd_in) 0 else fds) (some wr) 1
           else if fd_in ≠ 0 then dup2 fds (some fd_in) 0 else fds) := by
  simp [child_fds]

theorem child_fds_redirects (env : Env) (c : command) (rd wr : Nat) (t : FdTable)
    (h0 : (t.lookup 0).isSome) (h1 : (t.lookup 1).isSome) (hrd0 : rd ≠ 0) (hrd1 : rd ≠ 1) :
    (child_fds env c false 0 rd wr t).lookup 0
        = (match c.in_file with
           | some p => if env.can_read p then some (Desc.file_in p) else t.lookup 0
           | none => t.lookup 0)
      ∧ (child_fds env c false 0 rd wr t).lookup 1
        = (match c.out_file with
           | some p => if env.can_write p then some (Desc.file_out p c.append) else t.lookup 1
           | none => t.lookup 1) := by
  have e01 : (0 : Nat) ≠ 1 := by decide
  have e10 : (1 : Nat) ≠ 0 := by decide
  rcases hi : c.in_file with _ | p <;> rcases ho : c.out_file with _ | q
  · simp only [child_fds, hi, ho, ne_eq, not_true_eq_false, if_false, Bool.false_eq_true]
    exact ⟨lookup_fd_close_ne _ _ _ hrd0.symm, lookup_fd_close_ne _ _ _ hrd1.symm⟩
  · cases hw : env.can_write q
    · simp only [child_fds, hi, ho, sys_open, hw, ne_eq, not_true_eq_false, if_false,
        Bool.false_eq_true, dup2]
      exact ⟨lookup_fd_close_ne _ _ _ hrd0.symm, lookup_fd_close_ne _ _ _ hrd1.symm⟩
    · simp only [child_fds, hi, ho, sys_open, hw, ne_eq, not_true_eq_false, if_false, if_true,
        Bool.false_eq_true]
      refine ⟨?_, ?_⟩
      · rw [lookup_fd_close_ne _ _ _ hrd0.symm, lookup_open_dup2_ne _ _ _ _ e01 h0]
      · rw [lookup_fd_close_ne _ _ _ hrd1.symm, lookup_open_dup2_self]
  · cases hr : env.can_read p
    · simp only [child_fds, hi, ho, sys_open, hr, ne_eq, not_true_eq_false, if_false,
        Bool.false_eq_true, dup2]
      exact ⟨lookup_fd_close_ne _ _ _ hrd0.symm, lookup_fd_close_ne _ _ _ hrd1.symm⟩
    · simp only [child_fds, hi, ho, sys_open, hr, ne_eq, not_true_eq_false, if_false, if_true,
        Bool.false_eq_true]
      refine ⟨?_, ?_⟩
      · rw [lookup_fd_close_ne _ _ _ hrd0.symm, lookup_open_dup2_self]
      · rw [lookup_fd_close_ne _ _ _ hrd1.symm, lookup_open_dup2_ne _ _ _ _ e10 h1]
  · cases hr : env.can_read p <;> cases hw : env.can_write q
    · simp only [child_fds, hi, ho, sys_open, hr, hw, ne_eq, not_true_eq_false, if_false,
        Bool.false_eq_true, dup2]
      exact ⟨lookup_fd_close_ne _ _ _ hrd0.symm, lookup_fd_close_ne _ _ _ hrd1.symm⟩
    · simp only [child_fds, hi, ho, sys_open, hr, hw, ne_eq, not_true_eq_false, if_false,
        if_true, Bool.false_eq_true]
      refine ⟨?_, ?_⟩
      · rw [lookup_fd_close_ne _ _ _ hrd0.symm, lookup_open_dup2_ne _ _ _ _ e01 (by
          simpa [dup2] using h0)]
        simp [dup2]
      · rw [lookup_fd_close_ne _ _ _ hrd1.symm, lookup_open_dup2_self]
    · simp only [child_fds, hi, ho, sys_open, hr, hw, ne_eq, not_true_eq_false, if_false,
        if_true, Bool.false_eq_true]
      refine ⟨?_, ?_⟩
      · rw [lookup_fd_close_ne _ _ _ hrd0.symm]
        show (dup2 _ none 1).lookup 0 = _
        rw [lookup_dup2_ne _ _ _ _ e01, lookup_open_dup2_self]
      · rw [lookup_fd_close_ne _ _ _ hrd1.symm]
        show (dup2 _ none 1).lookup 1 = _
        rw [show ∀ u : FdTable, dup2 u none 1 = u from fun u => rfl,
          lookup_open_dup2_ne _ _ _ _ e10 h1]
    · simp only [child_fds, hi, ho, sys_open, hr, hw, ne_eq, not_true_eq_false, if_false,
        if_true, Bool.false_eq_true]
      have h1' : ((dup2 (fd_set t (fd_lowest_free t) (Desc.file_in p))
          (some (fd_lowest_free t)) 0).lookup 1).isSome := by
        rw [lookup_open_dup2_ne _ _ _ _ e10 h1]; exact h1
      have h0' : ((dup2 (fd_set t (fd_lowest_free t) (Desc.file_in p))
          (some (fd_lowest_free t)) 0).lookup 0).isSome := by
        rw [lookup_open_dup2_self]; rfl
      refine ⟨?_, ?_⟩
      · rw [lookup_fd_close_ne _ _ _ hrd0.symm, lookup_open_dup2_ne _ _ _ _ e01 h0',
          lookup_open_dup2_self]
      · rw [lookup_fd_close_ne _ _ _ hrd1.symm, lookup_open_dup2_self]

/-- Descriptors 0 and 1 of the child forked for a stage, in an interpreter
that has its own descriptors 0 and 1 open and whose `fd_in` is 0 or open. -/
theorem child_of_stage (env : Env) (c : command) (has_next : Bool) (fd_in : Nat) (sh : Shell)
    (h0 : (sh.fds.lookup 0).isSome) (h1 : (sh.fds.lookup 1).isSome)
    (hin : fd_in ≠ 0 → (sh.fds.lookup fd_in).isSome) :
    (child_fds env c has_next fd_in (sys_pipe sh).1 (sys_pipe sh).2.1
        (sys_pipe sh).2.2.fds).lookup 0
        = (match c.in_file with
           | some p =>
             if env.can_read p then some (Desc.file_in p)
             else if fd_in ≠ 0 then sh.fds.lookup fd_in else sh.fds.lookup 0
           | none => if fd_in ≠ 0 then sh.fds.lookup fd_in else sh.fds.lookup 0)
      ∧ (child_fds env c has_next fd_in (sys_pipe sh).1 (sys_pipe sh).2.1
        (sys_pipe sh).2.2.fds).lookup 1
        = (match c.out_file with
           | some p =>
             if env.can_write p then some (Desc.file_out p c.append)
             else if has_next then some (Desc.pipe_write sh.pipes) else sh.fds.lookup 1
           | none => if has_next then some (Desc.pipe_write sh.pipes) else sh.fds.lookup 1)
      ∧ (sys_pipe sh).1 ≠ 0 := by
  obtain ⟨hf, hrd, hwr, hne, _, _⟩ := sys_pipe_fds sh
  have free_ne : ∀ n m : Nat, (sh.fds.lookup n).isSome → sh.fds.lookup m = none → n ≠ m := by
    intro n m hn hm he
    rw [he, hm] at hn
    exact absurd hn (by simp)
  have hrd0 := (free_ne 0 _ h0 hrd).symm
  have hrd1 := (free_ne 1 _ h1 hrd).symm
  have hwr0 := (free_ne 0 _ h0 hwr).symm
  have hwr1 := (free_ne 1 _ h1 hwr).symm
  have hF : ∀ n, (sh.fds.lookup n).isSome →
      (sys_pipe sh).2.2.fds.lookup n = sh.fds.lookup n := by
    intro n hn
    have e1 : (n == (sys_pipe sh).2.1) = false := by simpa using free_ne n _ hn hwr
    have e2 : (n == (sys_pipe sh).1) = false := by simpa using free_ne n _ hn hrd
    rw [hf, List.lookup_cons, e1, List.lookup_cons, e2]
  have hFwr : (sys_pipe sh).2.2.fds.lookup (sys_pipe sh).2.1
      = some (Desc.pipe_write sh.pipes) := by
    rw [hf]; exact List.lookup_cons_self
  have e01 : (0 : Nat) ≠ 1 := by decide
  have e10 : (1 : Nat) ≠ 0 := by decide
  -- the table after `dup2(fd_in, 0)`
  have hT1 : ∀ m, (if fd_in ≠ 0 then dup2 (sys_pipe sh).2.2.fds (some fd_in) 0
        else (sys_pipe sh).2.2.fds).lookup m
      = if m = 0 then (if fd_in ≠ 0 then sh.fds.lookup fd_in else sh.fds.lookup 0)
        else (sys_pipe sh).2.2.fds.lookup m := by
    intro m
    by_cases hfd : fd_in ≠ 0
    · rw [if_pos hfd]
      by_cases hm : m = 0
      · rw [if_pos hm, if_pos hfd, hm]
        obtain ⟨d, hd⟩ := Option.isSome_iff_exists.mp (hin hfd)
        rw [hd]
        exact lookup_dup2_self _ _ _ d (by rw [hF _ (hin hfd), hd])
      · rw [if_neg hm, lookup_dup2_ne _ _ _ _ hm]
    · rw [if_neg hfd]
      by_cases hm : m = 0
      · rw [if_pos hm, if_neg hfd, hm, hF 0 h0]
      · rw [if_neg hm]
  -- the table after `dup2(pipefd[1], 1)`
  have hT2_0 : (if has_next = true then
        dup2 (if fd_in ≠ 0 then dup2 (sys_pipe sh).2.2.fds (some fd_in) 0
          else (sys_pipe sh).2.2.fds) (some (sys_pipe sh).2.1) 1
        else if fd_in ≠ 0 then dup2 (sys_pipe sh).2.2.fds (some fd_in) 0
          else (sys_pipe sh).2.2.fds).lookup 0
      = if fd_in ≠ 0 then sh.fds.lookup fd_in else sh.fds.lookup 0 := by
    cases has_next
    · simp only [Bool.false_eq_true, if_false]
      rw [hT1 0, if_pos rfl]
    · simp only [if_true]
      rw [lookup_dup2_ne _ _ _ _ e01, hT1 0, if_pos rfl]
  have hT2_1 : (if has_next = true then
        dup2 (if fd_in ≠ 0 then dup2 (sys_pipe sh).2.2.fds (some fd_in) 0
          else (sys_pipe sh).2.2.fds) (some (sys_pipe sh).2.1) 1
        else if fd_in ≠ 0 then dup2 (sys_pipe sh).2.2.fds (some fd_in) 0
          else (sys_pipe sh).2.2.fds).lookup 1
      = if has_next = true then some (Desc.pipe_write sh.pipes) else sh.fds.lookup 1 := by
    cases has_next
    · simp only [Bool.false_eq_true, if_false]
      rw [hT1 1, if_neg e10, hF 1 h1]
    · simp only [if_true]
      exact lookup_dup2_self _ _ _ _ (by rw [hT1, if_neg hwr0, hFwr])
  have hbase0 : ((if fd_in ≠ 0 then sh.fds.lookup fd_in else sh.fds.lookup 0)).isSome := by
    by_cases hfd : fd_in ≠ 0
    · rw [if_pos hfd]; exact hin hfd
    · rw [if_neg hfd]; exact h0
  have hbase1 : ((if has_next = true then some (Desc.pipe_write sh.pipes)
      else sh.fds.lookup 1)).isSome := by
    cases has_next
    · simpa using h1
    · rfl
  have hred := child_fds_redirects env c (sys_pipe sh).1 (sys_pipe sh).2.1 _
    (by rw [hT2_0]; exact hbase0) (by rw [hT2_1]; exact hbase1) hrd0 hrd1
  rw [child_fds_split, hred.1, hred.2, hT2_0, hT2_1]
  exact ⟨rfl, rfl, hrd0⟩

/-- A stage that `builtin` does not handle: one child is created with the
stage's arguments, and the loop goes on with the read end of the stage's
pipe, which stays open in the interpreter. -/
theorem external_stage (env : Env) (c : command) (cs : List command) (fd_in : Nat)
    (sh sh0 : Shell) (hext : (builtin env c sh0).1 = dispatch.not_handled) :
    ∃ sh1, execLoop env (c :: cs) fd_in sh = execLoop env cs (sys_pipe sh).1 sh1
      ∧ sh1.procs = sh.procs ++ [Proc.mk c.argv
          (child_fds env c (!cs.isEmpty) fd_in (sys_pipe sh).1 (sys_pipe sh).2.1
            (sys_pipe sh).2.2.fds)]
      ∧ sh1.fds = ((sys_pipe sh).1, Desc.pipe_read sh.pipes) :: sh.fds
      ∧ sh1.pipes = sh.pipes + 1 := by
  have hext' : (builtin env c (sys_pipe sh).2.2).1 = dispatch.not_handled := by
    rw [builtin_fst_indep env env c _ sh0]; exact hext
  obtain ⟨hfds, hpipes, hprocs, _⟩ := builtin_frame env c (sys_pipe sh).2.2
  obtain ⟨_, _, _, _, hp, hq⟩ := sys_pipe_fds sh
  refine ⟨_, execLoop_external env c cs fd_in sh hext', ?_, stage_fds sh _ hfds, ?_⟩
  · show (builtin env c (sys_pipe sh).2.2).2.procs ++ [_] = _
    rw [hprocs, hq, hfds]
  · show (builtin env c (sys_pipe sh).2.2).2.pipes = _
    rw [hpipes, hp]

/-- A stage that `builtin` handles: no child is created. -/
theorem handled_stage (env : Env) (c : command) (cs : List command) (fd_in : Nat)
    (sh sh0 : Shell) (hh : (builtin env c sh0).1 = dispatch.handled) :
    ∃ sh1, execLoop env (c :: cs) fd_in sh = execLoop env cs (sys_pipe sh).1 sh1
      ∧ sh1.procs = sh.procs
      ∧ sh1.fds = ((sys_pipe sh).1, Desc.pipe_read sh.pipes) :: sh.fds
      ∧ sh1.pipes = sh.pipes + 1 := by
  have hh' : (builtin env c (sys_pipe sh).2.2).1 = dispatch.handled := by
    rw [builtin_fst_indep env env c _ sh0]; exact hh
  obtain ⟨hfds, hpipes, hprocs, _⟩ := builtin_frame env c (sys_pipe sh).2.2
  obtain ⟨_, _, _, _, hp, hq⟩ := sys_pipe_fds sh
  refine ⟨_, execLoop_handled env c cs fd_in sh hh', ?_, stage_fds sh _ hfds, ?_⟩
  · show (builtin env c (sys_pipe sh).2.2).2.procs = _
    rw [hprocs, hq]
  · show (builtin env c (sys_pipe sh).2.2).2.pipes = _
    rw [hpipes, hp]

/-- Children are only ever added, after those already created. -/
theorem execLoop_procs_extend (env : Env) (cs : List command) (fd_in : Nat) (sh : Shell) :
    ∃ more, (execLoop env cs fd_in sh).procs = sh.procs ++ more := by
  induction cs generalizing fd_in sh with
  | nil => exact ⟨[], by rw [execLoop_nil, List.append_nil]⟩
  | cons c cs ih =>
    cases hr : (builtin env c sh).1 with
    | handled =>
      obtain ⟨sh1, he, hp, _⟩ := handled_stage env c cs fd_in sh sh hr
      obtain ⟨more, hm⟩ := ih (sys_pipe sh).1 sh1
      exact ⟨more, by rw [he, hm, hp]⟩
    | not_handled =>
      obtain ⟨sh1, he, hp, _⟩ := external_stage env c cs fd_in sh sh hr
      obtain ⟨more, hm⟩ := ih (sys_pipe sh).1 sh1
      exact ⟨[Proc.mk c.argv (child_fds env c (!cs.isEmpty) fd_in (sys_pipe sh).1
        (sys_pipe sh).2.1 (sys_pipe sh).2.2.fds)] ++ more,
        by rw [he, hm, hp, List.append_assoc]⟩
    | exited n =>
      have hr' : (builtin env c (sys_pipe sh).2.2).1 = dispatch.exited n := by
        rw [builtin_fst_indep env env c _ sh]; exact hr
      refine ⟨[], ?_⟩
      rw [execLoop_exited env c cs fd_in sh n hr', (builtin_frame env c _).2.2.1,
        (sys_pipe_fds sh).2.2.2.2.2, List.append_nil]

/-- C15 fails as stated: for `cat < /nonexistent`, where the file cannot be
opened, the child is started all the same and its standard input is the
interpreter's own, not the file. -/
theorem child_keeps_stdin_when_open_fails :
    Env.sample.can_read "/nonexistent".toList = false
      ∧ ∃ p, (execute Env.sample
          [{ argv := ["cat".toList], in_file := some "/nonexistent".toList, out_file := none,
             append := false }] Shell.start).procs = [p]
        ∧ p.fds.lookup 0 = some (Desc.inherited 0)
        ∧ p.fds.lookup 0 ≠ some (Desc.file_in "/nonexistent".toList) := by
  refine ⟨by decide, ⟨["cat".toList],
    [(4, Desc.pipe_write 0), (0, Desc.inherited 0), (1, Desc.inherited 1),
      (2, Desc.inherited 2)]⟩, by decide, by decide, by decide⟩

/-- C15, as the code has it: in an interpreter whose descriptors 0 and 1 are
open and whose `fd_in` is 0 or an open descriptor, the child created for a
stage that `builtin` does not handle, whose redirect files (if any) can be
opened, has as standard input the input redirect file if one is set,
otherwise what `fd_in` refers to if `fd_in` is not 0, otherwise the
interpreter's descriptor 0; and as standard output the output redirect file
if one is set, opened for append or truncation by the stage's flag,
otherwise the write end of the stage's pipe if the stage is not the last,
otherwise the interpreter's descriptor 1. -/
theorem child_standard_descriptors (env : Env) (c : command) (cs : List command)
    (fd_in : Nat) (sh : Shell) (hext : (builtin env c sh).1 = dispatch.not_handled)
    (h0 : (sh.fds.lookup 0).isSome) (h1 : (sh.fds.lookup 1).isSome)
    (hin : fd_in ≠ 0 → (sh.fds.lookup fd_in).isSome)
    (hread : ∀ f, c.in_file = some f → env.can_read f = true)
    (hwrite : ∀ f, c.out_file = some f → env.can_write f = true) :
    ∃ p more, (execLoop env (c :: cs) fd_in sh).procs = sh.procs ++ p :: more
      ∧ p.argv = c.argv
      ∧ p.fds.lookup 0
        = (match c.in_file with
           | some f => some (Desc.file_in f)
           | none => if fd_in ≠ 0 then sh.fds.lookup fd_in else sh.fds.lookup 0)
      ∧ p.fds.lookup 1
        = (match c.out_file with
           | some f => some (Desc.file_out f c.append)
           | none => if cs ≠ [] then some (Desc.pipe_write sh.pipes) else sh.fds.lookup 1) := by
  obtain ⟨sh1, he, hp, _⟩ := external_stage env c cs fd_in sh sh hext
  obtain ⟨more, hm⟩ := execLoop_procs_extend env cs (sys_pipe sh).1 sh1
  obtain ⟨hc0, hc1, _⟩ := child_of_stage env c (!cs.isEmpty) fd_in sh h0 h1 hin
  refine ⟨Proc.mk c.argv (child_fds env c (!cs.isEmpty) fd_in (sys_pipe sh).1
    (sys_pipe sh).2.1 (sys_pipe sh).2.2.fds), more,
    by rw [he, hm, hp, List.append_assoc]; rfl, rfl, ?_, ?_⟩
  · show (child_fds env c (!cs.isEmpty) fd_in _ _ _).lookup 0 = _
    rw [hc0]
    cases hi : c.in_file with
    | none => rfl
    | some f => simp [hread f hi]
  · show (child_fds env c (!cs.isEmpty) fd_in _ _ _).lookup 1 = _
    rw [hc1]
    cases ho : c.out_file with
    | none => cases cs <;> simp
    | some f => simp [hwrite f ho]

theorem child_standard_descriptors_witness :
    (builtin Env.sample
        { argv := ["sort".toList], in_file := some "/etc/passwd".toList,
          out_file := some "/tmp/x".toList, append := true } Shell.start).1
        = dispatch.not_handled
      ∧ ∃ p more, (execLoop Env.sample
          [{ argv := ["sort".toList], in_file := some "/etc/passwd".toList,
             out_file := some "/tmp/x".toList, append := true }] 0 Shell.start).procs
            = Shell.start.procs ++ p :: more
        ∧ p.fds.lookup 0 = some (Desc.file_in "/etc/passwd".toList)
        ∧ p.fds.lookup 1 = some (Desc.file_out "/tmp/x".toList true) :=
  ⟨by decide,
    (child_standard_descriptors Env.sample
      { argv := ["sort".toList], in_file := some "/etc/passwd".toList,
        out_file := some "/tmp/x".toList, append := true } [] 0 Shell.start
      (by decide) (by decide) (by decide) (by decide)
      (fun f hf => by cases hf; decide) (fun f hf => by cases hf; decide)).imp
      (fun _ h => h.imp (fun _ h => ⟨h.1, h.2.2.1, h.2.2.2⟩))⟩

/-! ## Executor: adjacent stages -/

theorem stage_keeps_std (sh sh1 : Shell)
    (hf : sh1.fds = ((sys_pipe sh).1, Desc.pipe_read sh.pipes) :: sh.fds)
    (h0 : (sh.fds.lookup 0).isSome) (h1 : (sh.fds.lookup 1).isSome) :
    (sh1.fds.lookup 0).isSome ∧ (sh1.fds.lookup 1).isSome
      ∧ sh1.fds.lookup (sys_pipe sh).1 = some (Desc.pipe_read sh.pipes)
      ∧ (sys_pipe sh).1 ≠ 0 := by
  obtain ⟨_, hrd, _, _, _, _⟩ := sys_pipe_fds sh
  have hrd0 : (sys_pipe sh).1 ≠ 0 := by
    intro he; rw [he] at hrd; rw [hrd] at h0; exact absurd h0 (by simp)
  have hrd1 : (sys_pipe sh).1 ≠ 1 := by
    intro he; rw [he] at hrd; rw [hrd] at h1; exact absurd h1 (by simp)
  have e0 : ((0 : Nat) == (sys_pipe sh).1) = false := by simpa using hrd0.symm
  have e1 : ((1 : Nat) == (sys_pipe sh).1) = false := by simpa using hrd1.symm
  refine ⟨?_, ?_, ?_, hrd0⟩
  · rw [hf, List.lookup_cons, e0]; exact h0
  · rw [hf, List.lookup_cons, e1]; exact h1
  · rw [hf]; exact List.lookup_cons_self

/-- Running the stages of a prefix without `exit` leaves the loop at the rest
of the chain, in an interpreter that still has descriptors 0 and 1 open and
whose `fd_in` is 0 or open. -/
theorem execLoop_prefix (env : Env) (pre rest : List command) (fd_in : Nat) (sh : Shell)
    (hne : ∀ c ∈ pre, c.argv.head? ≠ some "exit".toList)
    (h0 : (sh.fds.lookup 0).isSome) (h1 : (sh.fds.lookup 1).isSome)
    (hin : fd_in ≠ 0 → (sh.fds.lookup fd_in).isSome) :
    ∃ fd_in' sh', execLoop env (pre ++ rest) fd_in sh = execLoop env rest fd_in' sh'
      ∧ (sh'.fds.lookup 0).isSome ∧ (sh'.fds.lookup 1).isSome
      ∧ (fd_in' ≠ 0 → (sh'.fds.lookup fd_in').isSome)
      ∧ sh'.pipes = sh.pipes + pre.length
      ∧ ∃ mid, sh'.procs = sh.procs ++ mid := by
  induction pre generalizing fd_in sh with
  | nil => exact ⟨fd_in, sh, rfl, h0, h1, hin, rfl, [], (List.append_nil _).symm⟩
  | cons c pre ih =>
    have hne' : ∀ d ∈ pre, d.argv.head? ≠ some "exit".toList :=
      fun d hd => hne d (List.mem_cons_of_mem c hd)
    obtain ⟨sh1, he, hf, hp, m1, hm1⟩ : ∃ sh1, execLoop env (c :: (pre ++ rest)) fd_in sh
        = execLoop env (pre ++ rest) (sys_pipe sh).1 sh1
        ∧ sh1.fds = ((sys_pipe sh).1, Desc.pipe_read sh.pipes) :: sh.fds
        ∧ sh1.pipes = sh.pipes + 1 ∧ ∃ m1, sh1.procs = sh.procs ++ m1 := by
      cases hr : (builtin env c sh).1 with
      | handled =>
        obtain ⟨sh1, he, hp, hf, hq⟩ := handled_stage env c (pre ++ rest) fd_in sh sh hr
        exact ⟨sh1, he, hf, hq, [], by rw [hp, List.append_nil]⟩
      | not_handled =>
        obtain ⟨sh1, he, hp, hf, hq⟩ := external_stage env c (pre ++ rest) fd_in sh sh hr
        exact ⟨sh1, he, hf, hq, _, hp⟩
      | exited n =>
        exact absurd ((builtin_exit_iff env c sh).mp ⟨n, hr⟩) (hne c (List.mem_cons_self c pre))
    obtain ⟨k0, k1, krd, _⟩ := stage_keeps_std sh sh1 hf h0 h1
    obtain ⟨fd_in', sh', he', g0, g1, gin, gp, mid, hmid⟩ :=
      ih (sys_pipe sh).1 sh1 hne' k0 k1 (fun _ => by rw [krd]; rfl)
    refine ⟨fd_in', sh', by rw [List.cons_append, he, he'], g0, g1, gin, ?_, m1 ++ mid, ?_⟩
    · rw [gp, hp, List.length_cons]; omega
    · rw [hmid, hm1, List.append_assoc]

/-- C13 fails as stated: in `echo hi | cat` the first stage is a builtin; it
prints `hi` on the interpreter's own standard output, which is not the pipe,
while the child created for `cat` reads the read end of pipe 0, into which
nothing has been written. -/
theorem builtin_output_bypasses_pipe :
    (builtin Env.sample
        { argv := ["echo".toList, "hi".toList], in_file := none, out_file := none,
          append := false } Shell.start).1 = dispatch.handled
      ∧ (execute Env.sample
          [{ argv := ["echo".toList, "hi".toList], in_file := none, out_file := none,
             append := false },
           { argv := ["cat".toList], in_file := none, out_file := none, append := false }]
          Shell.start).out = "hi\n".toList
      ∧ (execute Env.sample
          [{ argv := ["echo".toList, "hi".toList], in_file := none, out_file := none,
             append := false },
           { argv := ["cat".toList], in_file := none, out_file := none, append := false }]
          Shell.start).fds.lookup 1 = some (Desc.inherited 1)
      ∧ (execute Env.sample
          [{ argv := ["echo".toList, "hi".toList], in_file := none, out_file := none,
             append := false },
           { argv := ["cat".toList], in_file := none, out_file := none, append := false }]
          Shell.start).procs
        = [{ argv := ["cat".toList],
             fds := [(0, Desc.pipe_read 0), (5, Desc.pipe_write 1), (3, Desc.pipe_read 0),
                     (1, Desc.inherited 1), (2, Desc.inherited 2)] }] := by
  refine ⟨by decide, by decide, by decide, by decide⟩

/-- C13, as the code has it: in an interpreter whose descriptors 0 and 1 are
open, for adjacent stages `c1`, `c2` of a chain that both run as child
processes, with no `exit` stage before them, `c1` having no output redirect
and `c2` no input redirect, the two children are created one after the
other, the standard output of the first is the write end of a pipe and the
standard input of the second is the read end of that same pipe. -/
theorem adjacent_children_share_pipe (env : Env) (pre : List command) (c1 c2 : command)
    (post : List command) (sh : Shell)
    (hne : ∀ c ∈ pre, c.argv.head? ≠ some "exit".toList)
    (h0 : (sh.fds.lookup 0).isSome) (h1 : (sh.fds.lookup 1).isSome)
    (he1 : (builtin env c1 sh).1 = dispatch.not_handled)
    (he2 : (builtin env c2 sh).1 = dispatch.not_handled)
    (ho : c1.out_file = none) (hi : c2.in_file = none) :
    ∃ before p1 p2 after,
      (execute env (pre ++ c1 :: c2 :: post) sh).procs = before ++ p1 :: p2 :: after
        ∧ p1.argv = c1.argv ∧ p2.argv = c2.argv
        ∧ p1.fds.lookup 1 = some (Desc.pipe_write (sh.pipes + pre.length))
        ∧ p2.fds.lookup 0 = some (Desc.pipe_read (sh.pipes + pre.length)) := by
  obtain ⟨fd_in', sh', hpre, g0, g1, gin, gp, mid, hmid⟩ :=
    execLoop_prefix env pre (c1 :: c2 :: post) 0 sh hne h0 h1 (fun h => absurd rfl h)
  obtain ⟨sh1, hs1, hp1, hf1, hq1⟩ := external_stage env c1 (c2 :: post) fd_in' sh' sh he1
  obtain ⟨_, hc1, _⟩ := child_of_stage env c1 (!(c2 :: post).isEmpty) fd_in' sh' g0 g1 gin
  obtain ⟨k0, k1, krd, krd0⟩ := stage_keeps_std sh' sh1 hf1 g0 g1
  obtain ⟨sh2, hs2, hp2, _, _⟩ := external_stage env c2 post (sys_pipe sh').1 sh1 sh he2
  obtain ⟨hc2, _, _⟩ := child_of_stage env c2 (!post.isEmpty) (sys_pipe sh').1 sh1 k0 k1
    (fun _ => by rw [krd]; rfl)
  obtain ⟨more, hmore⟩ := execLoop_procs_extend env post (sys_pipe sh1).1 sh2
  refine ⟨sh.procs ++ mid,
    Proc.mk c1.argv (child_fds env c1 (!(c2 :: post).isEmpty) fd_in' (sys_pipe sh').1
      (sys_pipe sh').2.1 (sys_pipe sh').2.2.fds),
    Proc.mk c2.argv (child_fds env c2 (!post.isEmpty) (sys_pipe sh').1 (sys_pipe sh1).1
      (sys_pipe sh1).2.1 (sys_pipe sh1).2.2.fds),
    more, ?_, rfl, rfl, ?_, ?_⟩
  · unfold execute
    rw [hpre, hs1, hs2, hmore, hp2, hp1, hmid]
    simp
  · show (child_fds env c1 _ _ _ _ _).lookup 1 = _
    rw [hc1, ho, gp]
    rfl
  · show (child_fds env c2 _ _ _ _ _).lookup 0 = _
    rw [hc2, hi]
    simp only
    rw [if_pos krd0, krd, gp]

theorem adjacent_children_share_pipe_witness :
    (Shell.start.fds.lookup 0).isSome ∧ (Shell.start.fds.lookup 1).isSome
      ∧ ∃ before p1 p2 after,
          (execute Env.sample
            ([] ++ { argv := ["ls".toList], in_file := none, out_file := none, append := false }
              :: { argv := ["wc".toList], in_file := none, out_file := none, append := false }
              :: []) Shell.start).procs = before ++ p1 :: p2 :: after
          ∧ p1.fds.lookup 1 = some (Desc.pipe_write (Shell.start.pipes + ([] : List command).length))
          ∧ p2.fds.lookup 0 = some (Desc.pipe_read (Shell.start.pipes + ([] : List command).length)) :=
  ⟨by decide, by decide,
    (adjacent_children_share_pipe Env.sample []
      { argv := ["ls".toList], in_file := none, out_file := none, append := false }
      { argv := ["wc".toList], in_file := none, out_file := none, append := false }
      [] Shell.start (by decide) (by decide) (by decide) (by decide) (by decide) rfl rfl).imp
      (fun _ h => h.imp (fun _ h => h.imp (fun _ h => h.imp
        (fun _ h => ⟨h.1, h.2.2.2.1, h.2.2.2.2⟩))))⟩

/-! ## Executor: processes created and order of calls -/

theorem sys_chdir_calls (env : Env) (sh : Shell) (path : Option CStr) :
    (sys_chdir env sh path).calls = sh.calls ++ [Call.chdir path] := by
  unfold sys_chdir
  cases path with
  | none => rfl
  | some p =>
    dsimp only
    cases env.chdir_to sh.cwd p <;> rfl

/-- The calls `builtin` makes are neither `fork` nor `wait`. -/
theorem builtin_calls_filter (env : Env) (c : command) (sh : Shell) :
    (builtin env c sh).2.calls.filter (fun k => decide (k = Call.fork ∨ k = Call.wait))
      = sh.calls.filter (fun k => decide (k = Call.fork ∨ k = Call.wait)) := by
  unfold builtin
  split
  · rfl
  · split_ifs
    · simp [List.filter_append]
    · rw [sys_chdir_calls]; simp [List.filter_append]
    · rfl
    · rfl
    · rfl
    · rfl

theorem sys_chdir_io (env : Env) (sh sh' : Shell) (path : Option CStr) (ho : sh.out = sh'.out)
    (hc : sh.cwd = sh'.cwd) :
    (sys_chdir env sh path).out = (sys_chdir env sh' path).out
      ∧ (sys_chdir env sh path).cwd = (sys_chdir env sh' path).cwd := by
  unfold sys_chdir
  cases path with
  | none => exact ⟨ho, hc⟩
  | some p =>
    dsimp only
    rw [hc]
    cases env.chdir_to sh'.cwd p with
    | none => exact ⟨ho, rfl⟩
    | some d => exact ⟨ho, rfl⟩

/-- What `builtin` prints and where it leaves the working directory depend
only on what was printed before and on the working directory. -/
theorem builtin_io (env : Env) (c : command) (sh sh' : Shell) (ho : sh.out = sh'.out)
    (hc : sh.cwd = sh'.cwd) :
    (builtin env c sh).2.out = (builtin env c sh').2.out
      ∧ (builtin env c sh).2.cwd = (builtin env c sh').2.cwd := by
  unfold builtin
  split
  · exact ⟨ho, hc⟩
  · split_ifs
    · exact ⟨ho, hc⟩
    · exact sys_chdir_io env sh sh' _ ho hc
    · simp [print, getcwd, ho, hc]
    · simp [print, ho, hc]
    · simp [print, ho, hc]
    · exact ⟨ho, hc⟩

/-- One stage that is not `exit`, summed up: a child with the stage's
arguments exactly when `builtin` does not handle it, a `fork` before the
`wait` in that case and the `wait` alone otherwise, and on the interpreter's
own output and working directory the effect of `builtin`. -/
theorem stage_summary (env : Env) (c : command) (cs : List command) (fd_in : Nat)
    (sh sh0 : Shell) (hne : c.argv.head? ≠ some "exit".toList) :
    ∃ sh1, execLoop env (c :: cs) fd_in sh = execLoop env cs (sys_pipe sh).1 sh1
      ∧ sh1.procs.map Proc.argv
          = sh.procs.map Proc.argv
            ++ (if (builtin env c sh0).1 = dispatch.not_handled then [c.argv] else [])
      ∧ sh1.calls.filter (fun k => decide (k = Call.fork ∨ k = Call.wait))
          = sh.calls.filter (fun k => decide (k = Call.fork ∨ k = Call.wait))
            ++ (if (builtin env c sh0).1 = dispatch.not_handled then [Call.fork, Call.wait]
                else [Call.wait])
      ∧ sh1.out = (builtin env c sh).2.out ∧ sh1.cwd = (builtin env c sh).2.cwd := by
  have hio := builtin_io env c (sys_pipe sh).2.2 sh rfl rfl
  have hcalls := builtin_calls_filter env c (sys_pipe sh).2.2
  have hpc : (sys_pipe sh).2.2.calls.filter (fun k => decide (k = Call.fork ∨ k = Call.wait))
      = sh.calls.filter (fun k => decide (k = Call.fork ∨ k = Call.wait)) := by
    show (sh.calls ++ [Call.pipe _ _]).filter _ = _
    simp [List.filter_append]
  obtain ⟨_, _, hprocs, _⟩ := builtin_frame env c (sys_pipe sh).2.2
  rcases execLoop_step env c cs fd_in sh hne with ⟨hr, he⟩ | ⟨hr, he⟩
  · have hr0 : (builtin env c sh0).1 ≠ dispatch.not_handled := by
      rw [builtin_fst_indep env env c sh0 (sys_pipe sh).2.2, hr]; simp
    refine ⟨_, he, ?_, ?_, hio.1, hio.2⟩
    · rw [if_neg hr0, List.append_nil]
      show ((builtin env c (sys_pipe sh).2.2).2.procs).map _ = _
      rw [hprocs]; rfl
    · rw [if_neg hr0]
      show (((builtin env c (sys_pipe sh).2.2).2.calls ++ [Call.wait]) ++ [Call.close _]).filter _
        = _
      rw [List.filter_append, List.filter_append, hcalls, hpc]
      simp
  · have hr0 : (builtin env c sh0).1 = dispatch.not_handled := by
      rw [builtin_fst_indep env env c sh0 (sys_pipe sh).2.2, hr]
    refine ⟨_, he, ?_, ?_, hio.1, hio.2⟩
    · rw [if_pos hr0]
      show ((builtin env c (sys_pipe sh).2.2).2.procs ++ [_]).map _ = _
      rw [hprocs]
      simp
      rfl
    · rw [if_pos hr0]
      show ((((builtin env c (sys_pipe sh).2.2).2.calls ++ [Call.fork]) ++ [Call.wait])
        ++ [Call.close _]).filter _ = _
      rw [List.filter_append, List.filter_append, List.filter_append, hcalls, hpc]
      simp

theorem execLoop_summary (env : Env) (cs : List command) (fd_in : Nat) (sh sh0 sh' : Shell)
    (hne : ∀ c ∈ cs, c.argv.head? ≠ some "exit".toList) (ho : sh.out = sh'.out)
    (hc : sh.cwd = sh'.cwd) :
    (execLoop env cs fd_in sh).procs.map Proc.argv
        = sh.procs.map Proc.argv
          ++ (cs.filter (fun c => decide ((builtin env c sh0).1 = dispatch.not_handled))).map
              command.argv
      ∧ (execLoop env cs fd_in sh).calls.filter (fun k => decide (k = Call.fork ∨ k = Call.wait))
        = sh.calls.filter (fun k => decide (k = Call.fork ∨ k = Call.wait))
          ++ (cs.map (fun c =>
              if (builtin env c sh0).1 = dispatch.not_handled then [Call.fork, Call.wait]
              else [Call.wait])).flatten
      ∧ (execLoop env cs fd_in sh).out = (cs.foldl (fun s c => (builtin env c s).2) sh').out
      ∧ (execLoop env cs fd_in sh).cwd = (cs.foldl (fun s c => (builtin env c s).2) sh').cwd := by
  induction cs generalizing fd_in sh sh' with
  | nil =>
    rw [execLoop_nil]
    simp [ho, hc]
  | cons c cs ih =>
    obtain ⟨sh1, he, hp, hk, hout, hcwd⟩ :=
      stage_summary env c cs fd_in sh sh0 (hne c (List.mem_cons_self c cs))
    have hio := builtin_io env c sh sh' ho hc
    obtain ⟨i1, i2, i3, i4⟩ := ih (sys_pipe sh).1 sh1 ((builtin env c sh').2)
      (fun d hd => hne d (List.mem_cons_of_mem c hd)) (hout.trans hio.1) (hcwd.trans hio.2)
    rw [he]
    refine ⟨?_, ?_, ?_, ?_⟩
    · rw [i1, hp]
      by_cases hx : (builtin env c sh0).1 = dispatch.not_handled
      · rw [if_pos hx, List.filter_cons_of_pos (by simpa using hx)]
        simp
      · rw [if_neg hx, List.filter_cons_of_neg (by simpa using hx)]
        simp
    · rw [i2, hk]
      simp
    · rw [i3]; rfl
    · rw [i4]; rfl

/-- The calls `builtin` adds do not depend on the state it runs in. -/
theorem builtin_calls_eq (env : Env) (c : command) (s : Shell) :
    (builtin env c s).2.calls = s.calls ++ builtin_calls env c := by
  unfold builtin_calls builtin
  split
  · simp [Shell.start]
  · split_ifs
    · simp [Shell.start]
    · rw [sys_chdir_calls, sys_chdir_calls]; simp [Shell.start]
    · simp [print, Shell.start]
    · simp [print, Shell.start]
    · simp [print, Shell.start]
    · simp [Shell.start]

/-- The body of the loop for a stage that is not `exit`, in one equation:
`pipe`, then `builtin` in the interpreter, then `fork` if the stage was not
handled, then `wait` and `close`, and only then the rest of the chain. -/
theorem execLoop_cons_eq (env : Env) (c : command) (cs : List command) (fd_in : Nat)
    (s : Shell) (hne : c.argv.head? ≠ some "exit".toList) :
    execLoop env (c :: cs) fd_in s
      = execLoop env cs (sys_pipe s).1
          (sys_close
            (sys_wait
              (if (builtin env c (sys_pipe s).2.2).1 = dispatch.not_handled then
                sys_fork env c (!cs.isEmpty) fd_in (sys_pipe s).1 (sys_pipe s).2.1
                  (builtin env c (sys_pipe s).2.2).2
               else (builtin env c (sys_pipe s).2.2).2))
            (sys_pipe s).2.1) := by
  rcases execLoop_step env c cs fd_in s hne with ⟨hr, he⟩ | ⟨hr, he⟩
  · rw [he, if_neg (by rw [hr]; simp)]
  · rw [he, if_pos hr]

/-- The whole log of calls of a chain without `exit`: one segment per stage,
in chain order. -/
theorem execLoop_calls (env : Env) (cs : List command) (fd_in : Nat) (sh sh0 : Shell)
    (hne : ∀ c ∈ cs, c.argv.head? ≠ some "exit".toList) :
    ∃ segs : List (List Call),
      (execLoop env cs fd_in sh).calls = sh.calls ++ segs.flatten
        ∧ List.Forall₂
            (fun c seg => ∃ rd wr,
              seg = Call.pipe rd wr
                :: (builtin_calls env c
                    ++ (if (builtin env c sh0).1 = dispatch.not_handled then [Call.fork]
                        else [])
                    ++ [Call.wait, Call.close wr]))
            cs segs := by
  induction cs generalizing fd_in sh with
  | nil => exact ⟨[], by rw [execLoop_nil]; simp, List.Forall₂.nil⟩
  | cons c cs ih =>
    have hc := hne c (List.mem_cons_self c cs)
    obtain ⟨segs, hs, hf⟩ := ih (sys_pipe sh).1
      (sys_close
        (sys_wait
          (if (builtin env c (sys_pipe sh).2.2).1 = dispatch.not_handled then
            sys_fork env c (!cs.isEmpty) fd_in (sys_pipe sh).1 (sys_pipe sh).2.1
              (builtin env c (sys_pipe sh).2.2).2
           else (builtin env c (sys_pipe sh).2.2).2))
        (sys_pipe sh).2.1)
      (fun d hd => hne d (List.mem_cons_of_mem c hd))
    have hind : (builtin env c (sys_pipe sh).2.2).1 = (builtin env c sh0).1 :=
      builtin_fst_indep env env c _ sh0
    have hb := builtin_calls_eq env c (sys_pipe sh).2.2
    have hp : (sys_pipe sh).2.2.calls
        = sh.calls ++ [Call.pipe (sys_pipe sh).1 (sys_pipe sh).2.1] := rfl
    refine ⟨(Call.pipe (sys_pipe sh).1 (sys_pipe sh).2.1
        :: (builtin_calls env c
            ++ (if (builtin env c sh0).1 = dispatch.not_handled then [Call.fork] else [])
            ++ [Call.wait, Call.close (sys_pipe sh).2.1])) :: segs, ?_,
      List.Forall₂.cons ⟨_, _, rfl⟩ hf⟩
    rw [execLoop_cons_eq env c cs fd_in sh hc, hs, hind]
    by_cases hx : (builtin env c sh0).1 = dispatch.not_handled
    · rw [if_pos hx, if_pos hx]
      show ((((builtin env c (sys_pipe sh).2.2).2.calls ++ [Call.fork]) ++ [Call.wait])
        ++ [Call.close _]) ++ _ = _
      rw [hb, hp]
      simp
    · rw [if_neg hx, if_neg hx]
      show (((builtin env c (sys_pipe sh).2.2).2.calls ++ [Call.wait]) ++ [Call.close _]) ++ _
        = _
      rw [hb, hp]
      simp

/-- The state left by one stage: a child with the stage's arguments exactly
when `builtin` does not handle it, the stage's segment of calls, and on the
interpreter's output and working directory the effect of `builtin`. -/
theorem stage_full (env : Env) (c : command) (cs : List command) (fd_in : Nat)
    (sh sh0 : Shell) :
    (sys_close
        (sys_wait
          (if (builtin env c (sys_pipe sh).2.2).1 = dispatch.not_handled then
            sys_fork env c (!cs.isEmpty) fd_in (sys_pipe sh).1 (sys_pipe sh).2.1
              (builtin env c (sys_pipe sh).2.2).2
           else (builtin env c (sys_pipe sh).2.2).2))
        (sys_pipe sh).2.1).procs.map Proc.argv
        = sh.procs.map Proc.argv
          ++ (if (builtin env c sh0).1 = dispatch.not_handled then [c.argv] else [])
      ∧ (sys_close
        (sys_wait
          (if (builtin env c (sys_pipe sh).2.2).1 = dispatch.not_handled then
            sys_fork env c (!cs.isEmpty) fd_in (sys_pipe sh).1 (sys_pipe sh).2.1
              (builtin env c (sys_pipe sh).2.2).2
           else (builtin env c (sys_pipe sh).2.2).2))
        (sys_pipe sh).2.1).calls
        = sh.calls
          ++ Call.pipe (sys_pipe sh).1 (sys_pipe sh).2.1
            :: (builtin_calls env c
                ++ (if (builtin env c sh0).1 = dispatch.not_handled then [Call.fork] else [])
                ++ [Call.wait, Call.close (sys_pipe sh).2.1])
      ∧ (sys_close
        (sys_wait
          (if (builtin env c (sys_pipe sh).2.2).1 = dispatch.not_handled then
            sys_fork env c (!cs.isEmpty) fd_in (sys_pipe sh).1 (sys_pipe sh).2.1
              (builtin env c (sys_pipe sh).2.2).2
           else (builtin env c (sys_pipe sh).2.2).2))
        (sys_pipe sh).2.1).out = (builtin env c sh).2.out
      ∧ (sys_close
        (sys_wait
          (if (builtin env c (sys_pipe sh).2.2).1 = dispatch.not_handled then
            sys_fork env c (!cs.isEmpty) fd_in (sys_pipe sh).1 (sys_pipe sh).2.1
              (builtin env c (sys_pipe sh).2.2).2
           else (builtin env c (sys_pipe sh).2.2).2))
        (sys_pipe sh).2.1).cwd = (builtin env c sh).2.cwd := by
  have hio := builtin_io env c (sys_pipe sh).2.2 sh rfl rfl
  have hind : (builtin env c (sys_pipe sh).2.2).1 = (builtin env c sh0).1 :=
    builtin_fst_indep env env c _ sh0
  have hb := builtin_calls_eq env c (sys_pipe sh).2.2
  have hp : (sys_pipe sh).2.2.calls
      = sh.calls ++ [Call.pipe (sys_pipe sh).1 (sys_pipe sh).2.1] := rfl
  obtain ⟨_, _, hprocs, _⟩ := builtin_frame env c (sys_pipe sh).2.2
  have hq : (sys_pipe sh).2.2.procs = sh.procs := rfl
  rw [hind]
  by_cases hx : (builtin env c sh0).1 = dispatch.not_handled
  · simp only [if_pos hx]
    refine ⟨?_, ?_, hio.1, hio.2⟩
    · show ((builtin env c (sys_pipe sh).2.2).2.procs ++ [_]).map _ = _
      rw [hprocs, hq]
      simp
    · show ((((builtin env c (sys_pipe sh).2.2).2.calls ++ [Call.fork]) ++ [Call.wait])
        ++ [Call.close _]) = _
      rw [hb, hp]
      simp
  · simp only [if_neg hx]
    refine ⟨?_, ?_, hio.1, hio.2⟩
    · show ((builtin env c (sys_pipe sh).2.2).2.procs).map _ = _
      rw [hprocs, hq]
      simp
    · show (((builtin env c (sys_pipe sh).2.2).2.calls ++ [Call.wait]) ++ [Call.close _]) = _
      rw [hb, hp]
      simp

/-- When the loop reaches the rest of a chain, exactly the stages before it
have run, each completely: their children exist, their segments of calls are
logged, their builtins have acted on the output and working directory. -/
theorem execLoop_split (env : Env) (pre rest : List command) (fd_in : Nat)
    (sh sh0 shr : Shell) (hne : ∀ c ∈ pre, c.argv.head? ≠ some "exit".toList)
    (ho : sh.out = shr.out) (hc : sh.cwd = shr.cwd) :
    ∃ fd_in' sh', execLoop env (pre ++ rest) fd_in sh = execLoop env rest fd_in' sh'
      ∧ sh'.procs.map Proc.argv
          = sh.procs.map Proc.argv
            ++ (pre.filter
                (fun c => decide ((builtin env c sh0).1 = dispatch.not_handled))).map
                  command.argv
      ∧ (∃ segs : List (List Call), sh'.calls = sh.calls ++ segs.flatten
          ∧ List.Forall₂
              (fun c seg => ∃ rd wr,
                seg = Call.pipe rd wr
                  :: (builtin_calls env c
                      ++ (if (builtin env c sh0).1 = dispatch.not_handled then [Call.fork]
                          else [])
                      ++ [Call.wait, Call.close wr]))
              pre segs)
      ∧ sh'.out = (pre.foldl (fun s c => (builtin env c s).2) shr).out
      ∧ sh'.cwd = (pre.foldl (fun s c => (builtin env c s).2) shr).cwd := by
  induction pre generalizing fd_in sh shr with
  | nil =>
    exact ⟨fd_in, sh, rfl, by simp, ⟨[], by simp, List.Forall₂.nil⟩, ho, hc⟩
  | cons c pre ih =>
    obtain ⟨hp, hk, hout, hcwd⟩ := stage_full env c (pre ++ rest) fd_in sh sh0
    have hio := builtin_io env c sh shr ho hc
    obtain ⟨fd_in', sh', he, i1, ⟨segs, i2, i3⟩, i4, i5⟩ := ih (sys_pipe sh).1 _
      ((builtin env c shr).2) (fun d hd => hne d (List.mem_cons_of_mem c hd))
      (hout.trans hio.1) (hcwd.trans hio.2)
    refine ⟨fd_in', sh', ?_, ?_,
      ⟨(Call.pipe (sys_pipe sh).1 (sys_pipe sh).2.1
          :: (builtin_calls env c
              ++ (if (builtin env c sh0).1 = dispatch.not_handled then [Call.fork] else [])
              ++ [Call.wait, Call.close (sys_pipe sh).2.1])) :: segs, ?_,
        List.Forall₂.cons ⟨(sys_pipe sh).1, (sys_pipe sh).2.1, rfl⟩ i3⟩, ?_, ?_⟩
    · rw [List.cons_append, execLoop_cons_eq env c (pre ++ rest) fd_in sh
        (hne c (List.mem_cons_self c pre)), he]
    · rw [i1, hp]
      by_cases hx : (builtin env c sh0).1 = dispatch.not_handled
      · rw [if_pos hx, List.filter_cons_of_pos (by simpa using hx)]
        simp
      · rw [if_neg hx, List.filter_cons_of_neg (by simpa using hx)]
        simp
    · rw [i2, hk]
      simp
    · rw [i4]; rfl
    · rw [i5]; rfl

/-- C16: on a chain without `exit` stage, `execute` creates one child per
stage that `builtin` does not handle and none for a handled one, wherever it
stands: the children, in order, have the arguments of the unhandled stages
in chain order, and their number is the number of unhandled stages.  Among
the `fork` and `wait` calls of the interpreter, each stage contributes, in
chain order, `fork` then `wait` when unhandled and `wait` alone when
handled, so every child is awaited before the next stage starts.  Handled
stages run in the interpreter: its output and working directory afterwards
are those of applying `builtin` to it for each stage in turn.

Stages are started in chain order: the whole log of calls is one segment per
stage, in chain order, each being the stage's `pipe`, then the calls of its
`builtin` run (`chdir` for `cd`), then `fork` if the stage is not handled,
then `wait` and the `close` of the write end; and for every stage that is
not `exit`, in every state, the loop runs the rest of the chain from the
state left by exactly these steps, so nothing of a later stage happens before
an earlier stage has been run and awaited.  Accordingly, wherever the chain is
cut, the loop reaches the later part in a state in which exactly the stages
of the earlier part have run: their children, their segments of calls and
the effects of their builtins, nothing else.  On `ls | cd /tmp` the child
for `ls` is forked and awaited before `chdir` is called. -/
theorem execute_one_child_per_external_stage (env : Env) (chain : List command) (sh : Shell)
    (hne : ∀ c ∈ chain, c.argv.head? ≠ some "exit".toList) :
    (execute env chain sh).procs.map Proc.argv
        = sh.procs.map Proc.argv
          ++ (chain.filter
              (fun c => decide ((builtin env c sh).1 = dispatch.not_handled))).map command.argv
      ∧ (execute env chain sh).procs.length
        = sh.procs.length
          + chain.countP (fun c => decide ((builtin env c sh).1 = dispatch.not_handled))
      ∧ (execute env chain sh).calls.filter (fun k => decide (k = Call.fork ∨ k = Call.wait))
        = sh.calls.filter (fun k => decide (k = Call.fork ∨ k = Call.wait))
          ++ (chain.map (fun c =>
              if (builtin env c sh).1 = dispatch.not_handled then [Call.fork, Call.wait]
              else [Call.wait])).flatten
      ∧ (execute env chain sh).out = (chain.foldl (fun s c => (builtin env c s).2) sh).out
      ∧ (execute env chain sh).cwd = (chain.foldl (fun s c => (builtin env c s).2) sh).cwd
      ∧ (∃ segs : List (List Call),
          (execute env chain sh).calls = sh.calls ++ segs.flatten
            ∧ List.Forall₂
                (fun c seg => ∃ rd wr,
                  seg = Call.pipe rd wr
                    :: (builtin_calls env c
                        ++ (if (builtin env c sh).1 = dispatch.not_handled then [Call.fork]
                            else [])
                        ++ [Call.wait, Call.close wr]))
                chain segs)
      ∧ (∀ (c : command) (s : Shell), (builtin env c s).2.calls = s.calls ++ builtin_calls env c)
      ∧ (∀ (c : command) (cs : List command) (fd_in : Nat) (s : Shell),
          c.argv.head? ≠ some "exit".toList →
          execLoop env (c :: cs) fd_in s
            = execLoop env cs (sys_pipe s).1
                (sys_close
                  (sys_wait
                    (if (builtin env c (sys_pipe s).2.2).1 = dispatch.not_handled then
                      sys_fork env c (!cs.isEmpty) fd_in (sys_pipe s).1 (sys_pipe s).2.1
                        (builtin env c (sys_pipe s).2.2).2
                     else (builtin env c (sys_pipe s).2.2).2))
                  (sys_pipe s).2.1))
      ∧ (∀ (fd_in : Nat) (s : Shell), execLoop env [] fd_in s = s)
      ∧ (∀ (pre rest : List command), chain = pre ++ rest →
          ∃ fd_in' sh', execute env chain sh = execLoop env rest fd_in' sh'
            ∧ sh'.procs.map Proc.argv
                = sh.procs.map Proc.argv
                  ++ (pre.filter
                      (fun c => decide ((builtin env c sh).1 = dispatch.not_handled))).map
                        command.argv
            ∧ (∃ segs : List (List Call), sh'.calls = sh.calls ++ segs.flatten
                ∧ List.Forall₂
                    (fun c seg => ∃ rd wr,
                      seg = Call.pipe rd wr
                        :: (builtin_calls env c
                            ++ (if (builtin env c sh).1 = dispatch.not_handled then
                                  [Call.fork] else [])
                            ++ [Call.wait, Call.close wr]))
                    pre segs)
            ∧ sh'.out = (pre.foldl (fun s c => (builtin env c s).2) sh).out
            ∧ sh'.cwd = (pre.foldl (fun s c => (builtin env c s).2) sh).cwd)
      ∧ (execute Env.sample
          [{ argv := ["ls".toList], in_file := none, out_file := none, append := false },
           { argv := ["cd".toList, "/tmp".toList], in_file := none, out_file := none,
             append := false }] Shell.start).calls
        = [Call.pipe 3 4, Call.fork, Call.wait, Call.close 4,
           Call.pipe 4 5, Call.chdir (some "/tmp".toList), Call.wait, Call.close 5] := by
  obtain ⟨h1, h2, h3, h4⟩ := execLoop_summary env chain 0 sh sh sh hne rfl rfl
  refine ⟨h1, ?_, h2, h3, h4, execLoop_calls env chain 0 sh sh hne, builtin_calls_eq env,
    fun c cs fd_in s hc => execLoop_cons_eq env c cs fd_in s hc, execLoop_nil env, ?_,
    by decide⟩
  · have := congrArg List.length h1
    simp only [List.length_map, List.length_append] at this
    rw [List.countP_eq_length_filter]
    exact this
  · intro pre rest hsplit
    subst hsplit
    exact execLoop_split env pre rest 0 sh sh sh
      (fun c hc => hne c (List.mem_append_left rest hc)) rfl rfl

theorem execute_one_child_per_external_stage_witness :
    (∀ c ∈ [({ argv := ["cd".toList, "/tmp".toList], in_file := none, out_file := none,
               append := false } : command),
            { argv := ["ls".toList], in_file := none, out_file := none, append := false },
            { argv := ["pwd".toList], in_file := none, out_file := none, append := false },
            { argv := ["wc".toList], in_file := none, out_file := none, append := false }],
        c.argv.head? ≠ some "exit".toList)
      ∧ (execute Env.sample
          [{ argv := ["cd".toList, "/tmp".toList], in_file := none, out_file := none,
             append := false },
           { argv := ["ls".toList], in_file := none, out_file := none, append := false },
           { argv := ["pwd".toList], in_file := none, out_file := none, append := false },
           { argv := ["wc".toList], in_file := none, out_file := none, append := false }]
          Shell.start).procs.map Proc.argv = [["ls".toList], ["wc".toList]]
      ∧ (execute Env.sample
          [{ argv := ["cd".toList, "/tmp".toList], in_file := none, out_file := none,
             append := false },
           { argv := ["ls".toList], in_file := none, out_file := none, append := false },
           { argv := ["pwd".toList], in_file := none, out_file := none, append := false },
           { argv := ["wc".toList], in_file := none, out_file := none, append := false }]
          Shell.start).calls.filter (fun k => decide (k = Call.fork ∨ k = Call.wait))
        = [Call.wait, Call.fork, Call.wait, Call.wait, Call.fork, Call.wait]
      ∧ (execute Env.sample
          [{ argv := ["ls".toList], in_file := none, out_file := none, append := false },
           { argv := ["cd".toList, "/tmp".toList], in_file := none, out_file := none,
             append := false }] Shell.start).calls
        = [Call.pipe 3 4, Call.fork, Call.wait, Call.close 4,
           Call.pipe 4 5, Call.chdir (some "/tmp".toList), Call.wait, Call.close 5] :=
  ⟨by decide,
    (execute_one_child_per_external_stage Env.sample _ Shell.start (by decide)).1.trans
      (by decide),
    (execute_one_child_per_external_stage Env.sample _ Shell.start (by decide)).2.2.1.trans
      (by decide),
    (execute_one_child_per_external_stage Env.sample
      [{ argv := ["cd".toList, "/tmp".toList], in_file := none, out_file := none,
         append := false },
       { argv := ["ls".toList], in_file := none, out_file := none, append := false },
       { argv := ["pwd".toList], in_file := none, out_file := none, append := false },
       { argv := ["wc".toList], in_file := none, out_file := none, append := false }]
      Shell.start (by decide)).2.2.2.2.2.2.2.2.2.2⟩

end Bish
